import Mathlib

/-!
# gograph `go/printer/mini`: the compactor, the minimality verifier and the tree diff

A shallow embedding of `src/go/printer/mini/mini.go` and
`src/go/printer/mini/compare.go`.

* A Go `string` / `[]byte` is a list of bytes (`Bytes`); a byte is a natural number.
* `token.Token` is the enumeration of `go/token`, with its numbering (`Token.val`).
* A run-time panic of the Go code (index or slice out of range, `panic(...)`) is the
  result `none`.
* The tokenizer (`go/scanner`) and the parser are external: a scan is the list of the
  results that `Scanner.Scan` delivers, a tree is what `ast.Inspect` walks.
-/

namespace GoGraph

/-! ## Bytes -/

/-- A Go string or byte slice. -/
abbrev Bytes := List Nat

/-- The bytes of an ASCII string constant. -/
def bytes (s : String) : Bytes := s.toList.map Char.toNat

/-! ## go/token -/

/-- The token kinds of `go/token` (Go 1.5), in declaration order. -/
inductive Token where
  | ILLEGAL | EOF | COMMENT
  | IDENT | INT | FLOAT | IMAG | CHAR | STRING
  | ADD | SUB | MUL | QUO | REM
  | AND | OR | XOR | SHL | SHR | AND_NOT
  | ADD_ASSIGN | SUB_ASSIGN | MUL_ASSIGN | QUO_ASSIGN | REM_ASSIGN
  | AND_ASSIGN | OR_ASSIGN | XOR_ASSIGN | SHL_ASSIGN | SHR_ASSIGN | AND_NOT_ASSIGN
  | LAND | LOR | ARROW | INC | DEC
  | EQL | LSS | GTR | ASSIGN | NOT
  | NEQ | LEQ | GEQ | DEFINE | ELLIPSIS
  | LPAREN | LBRACK | LBRACE | COMMA | PERIOD
  | RPAREN | RBRACK | RBRACE | SEMICOLON | COLON
  | BREAK | CASE | CHAN | CONST | CONTINUE
  | DEFAULT | DEFER | ELSE | FALLTHROUGH | FOR
  | FUNC | GO | GOTO | IF | IMPORT
  | INTERFACE | MAP | PACKAGE | RANGE | RETURN
  | SELECT | STRUCT | SWITCH | TYPE | VAR
  deriving DecidableEq

namespace Token

/-- The integer value of a token constant (`iota` numbering; the unexported markers
`literal_beg = 3`, `literal_end = 10`, `operator_beg = 11`, `operator_end = 59`,
`keyword_beg = 60`, `keyword_end = 86` take the gaps). -/
def val : Token → Nat
  | ILLEGAL => 0 | EOF => 1 | COMMENT => 2
  | IDENT => 4 | INT => 5 | FLOAT => 6 | IMAG => 7 | CHAR => 8 | STRING => 9
  | ADD => 12 | SUB => 13 | MUL => 14 | QUO => 15 | REM => 16
  | AND => 17 | OR => 18 | XOR => 19 | SHL => 20 | SHR => 21 | AND_NOT => 22
  | ADD_ASSIGN => 23 | SUB_ASSIGN => 24 | MUL_ASSIGN => 25 | QUO_ASSIGN => 26
  | REM_ASSIGN => 27
  | AND_ASSIGN => 28 | OR_ASSIGN => 29 | XOR_ASSIGN => 30 | SHL_ASSIGN => 31
  | SHR_ASSIGN => 32 | AND_NOT_ASSIGN => 33
  | LAND => 34 | LOR => 35 | ARROW => 36 | INC => 37 | DEC => 38
  | EQL => 39 | LSS => 40 | GTR => 41 | ASSIGN => 42 | NOT => 43
  | NEQ => 44 | LEQ => 45 | GEQ => 46 | DEFINE => 47 | ELLIPSIS => 48
  | LPAREN => 49 | LBRACK => 50 | LBRACE => 51 | COMMA => 52 | PERIOD => 53
  | RPAREN => 54 | RBRACK => 55 | RBRACE => 56 | SEMICOLON => 57 | COLON => 58
  | BREAK => 61 | CASE => 62 | CHAN => 63 | CONST => 64 | CONTINUE => 65
  | DEFAULT => 66 | DEFER => 67 | ELSE => 68 | FALLTHROUGH => 69 | FOR => 70
  | FUNC => 71 | GO => 72 | GOTO => 73 | IF => 74 | IMPORT => 75
  | INTERFACE => 76 | MAP => 77 | PACKAGE => 78 | RANGE => 79 | RETURN => 80
  | SELECT => 81 | STRUCT => 82 | SWITCH => 83 | TYPE => 84 | VAR => 85

/-- `Token.IsLiteral`: `literal_beg < tok && tok < literal_end`. -/
def IsLiteral (t : Token) : Bool := decide (3 < t.val) && decide (t.val < 10)

/-- `Token.IsOperator`: `operator_beg < tok && tok < operator_end`. -/
def IsOperator (t : Token) : Bool := decide (11 < t.val) && decide (t.val < 59)

/-- `Token.IsKeyword`: `keyword_beg < tok && tok < keyword_end`. -/
def IsKeyword (t : Token) : Bool := decide (60 < t.val) && decide (t.val < 86)

/-- `Token.String`: the entry of the `tokens` table. -/
def String : Token → Bytes
  | ILLEGAL => bytes "ILLEGAL" | EOF => bytes "EOF" | COMMENT => bytes "COMMENT"
  | IDENT => bytes "IDENT" | INT => bytes "INT" | FLOAT => bytes "FLOAT"
  | IMAG => bytes "IMAG" | CHAR => bytes "CHAR" | STRING => bytes "STRING"
  | ADD => bytes "+" | SUB => bytes "-" | MUL => bytes "*" | QUO => bytes "/"
  | REM => bytes "%"
  | AND => bytes "&" | OR => bytes "|" | XOR => bytes "^" | SHL => bytes "<<"
  | SHR => bytes ">>" | AND_NOT => bytes "&^"
  | ADD_ASSIGN => bytes "+=" | SUB_ASSIGN => bytes "-=" | MUL_ASSIGN => bytes "*="
  | QUO_ASSIGN => bytes "/=" | REM_ASSIGN => bytes "%="
  | AND_ASSIGN => bytes "&=" | OR_ASSIGN => bytes "|=" | XOR_ASSIGN => bytes "^="
  | SHL_ASSIGN => bytes "<<=" | SHR_ASSIGN => bytes ">>=" | AND_NOT_ASSIGN => bytes "&^="
  | LAND => bytes "&&" | LOR => bytes "||" | ARROW => bytes "<-" | INC => bytes "++"
  | DEC => bytes "--"
  | EQL => bytes "==" | LSS => bytes "<" | GTR => bytes ">" | ASSIGN => bytes "="
  | NOT => bytes "!"
  | NEQ => bytes "!=" | LEQ => bytes "<=" | GEQ => bytes ">=" | DEFINE => bytes ":="
  | ELLIPSIS => bytes "..."
  | LPAREN => bytes "(" | LBRACK => bytes "[" | LBRACE => bytes "\x7b" | COMMA => bytes ","
  | PERIOD => bytes "."
  | RPAREN => bytes ")" | RBRACK => bytes "]" | RBRACE => bytes "\x7d"
  | SEMICOLON => bytes ";" | COLON => bytes ":"
  | BREAK => bytes "break" | CASE => bytes "case" | CHAN => bytes "chan"
  | CONST => bytes "const" | CONTINUE => bytes "continue"
  | DEFAULT => bytes "default" | DEFER => bytes "defer" | ELSE => bytes "else"
  | FALLTHROUGH => bytes "fallthrough" | FOR => bytes "for"
  | FUNC => bytes "func" | GO => bytes "go" | GOTO => bytes "goto" | IF => bytes "if"
  | IMPORT => bytes "import"
  | INTERFACE => bytes "interface" | MAP => bytes "map" | PACKAGE => bytes "package"
  | RANGE => bytes "range" | RETURN => bytes "return"
  | SELECT => bytes "select" | STRUCT => bytes "struct" | SWITCH => bytes "switch"
  | TYPE => bytes "type" | VAR => bytes "var"

end Token

/-- `isL`: `tok >= token.LPAREN && tok <= token.LBRACE`. -/
def isL (tok : Token) : Bool :=
  decide (Token.LPAREN.val ≤ tok.val) && decide (tok.val ≤ Token.LBRACE.val)

/-- `isR`: `tok >= token.RPAREN && tok <= token.RBRACE`. -/
def isR (tok : Token) : Bool :=
  decide (Token.RPAREN.val ≤ tok.val) && decide (tok.val ≤ Token.RBRACE.val)

/-! ## strconv and strings -/

/-- The table `lowerhex` of strconv. -/
def lowerhex (n : Nat) : Nat := (bytes "0123456789abcdef").getD n 0

/-- What `strconv.Quote` appends for a rune below `0x80`, which is one byte: the quote
and the backslash are backslashed, a printable byte is copied, the seven named control
characters get their letter, the other bytes below the blank are written in hexadecimal
with `x`, `0x7f` with `u`. For a byte from `0x80` on this is the hexadecimal form with
`x` that `strconv.Quote` writes for a byte that starts no valid UTF-8 sequence. -/
def quoteByte (c : Nat) : Bytes :=
  if c = 34 ∨ c = 92 then [92, c]
  else if 32 ≤ c ∧ c < 127 then [c]
  else if c = 7 then [92, 97]
  else if c = 8 then [92, 98]
  else if c = 12 then [92, 102]
  else if c = 10 then [92, 110]
  else if c = 13 then [92, 114]
  else if c = 9 then [92, 116]
  else if c = 11 then [92, 118]
  else if c = 127 then [92, 117, 48, 48, 55, 102]
  else [92, 120, lowerhex (c / 16), lowerhex (c % 16)]

/-- `utf8.DecodeRuneInString` at the head of a non-empty string: the rune and its width;
`none` is the answer `(RuneError, 1)` to a byte that starts no valid encoding (a stray
continuation byte, a sequence cut short, an overlong form, a surrogate, a value above
`MaxRune`). -/
def decodeRune : Bytes → Option (Nat × Nat)
  | [] => none
  | c0 :: rest =>
    if c0 < 128 then some (c0, 1)
    else if c0 < 192 then none
    else
      match rest with
      | [] => none
      | c1 :: rest1 =>
        if c1 < 128 ∨ 192 ≤ c1 then none
        else if c0 < 224 then
          (if (c0 % 32) * 64 + c1 % 64 ≤ 127 then none
           else some ((c0 % 32) * 64 + c1 % 64, 2))
        else
          match rest1 with
          | [] => none
          | c2 :: rest2 =>
            if c2 < 128 ∨ 192 ≤ c2 then none
            else if c0 < 240 then
              (if (c0 % 16) * 4096 + (c1 % 64) * 64 + c2 % 64 ≤ 2047 then none
               else if 55296 ≤ (c0 % 16) * 4096 + (c1 % 64) * 64 + c2 % 64 ∧
                   (c0 % 16) * 4096 + (c1 % 64) * 64 + c2 % 64 ≤ 57343 then none
               else some ((c0 % 16) * 4096 + (c1 % 64) * 64 + c2 % 64, 3))
            else
              match rest2 with
              | [] => none
              | c3 :: _ =>
                if c3 < 128 ∨ 192 ≤ c3 then none
                else if c0 < 248 then
                  (if (c0 % 8) * 262144 + (c1 % 64) * 4096 + (c2 % 64) * 64 + c3 % 64 ≤ 65535 ∨
                      1114111 < (c0 % 8) * 262144 + (c1 % 64) * 4096 + (c2 % 64) * 64 + c3 % 64
                   then none
                   else some ((c0 % 8) * 262144 + (c1 % 64) * 4096 + (c2 % 64) * 64 + c3 % 64,
                     4))
                else none

/-- `strconv.IsPrint`, as far as it is written out in its source: exactly its test for
the runes up to `0xFF` (`0x20..0x7E`, and `0xA1..0xFF` without the soft hyphen `0xAD`).
From `0x100` on `strconv` consults the tables `isPrint16`, `isNotPrint16`, `isPrint32`
and `isNotPrint32`, which are not reproduced here: such a rune is taken as printable. -/
def isPrint (r : Nat) : Bool :=
  if r ≤ 255 then
    (decide (32 ≤ r) && decide (r ≤ 126)) || (decide (161 ≤ r) && decide (r ≠ 173))
  else true

/-- What `strconv.Quote` appends for a valid rune from `0x80` on that `IsPrint` rejects:
`u` and four hexadecimal digits below `0x10000`, else `U` and eight. -/
def quoteHex (r : Nat) : Bytes :=
  if r < 65536 then
    [92, 117, lowerhex (r / 4096 % 16), lowerhex (r / 256 % 16), lowerhex (r / 16 % 16),
      lowerhex (r % 16)]
  else
    [92, 85, lowerhex (r / 268435456 % 16), lowerhex (r / 16777216 % 16),
      lowerhex (r / 1048576 % 16), lowerhex (r / 65536 % 16), lowerhex (r / 4096 % 16),
      lowerhex (r / 256 % 16), lowerhex (r / 16 % 16), lowerhex (r % 16)]

/-- The loop of `strconv.Quote` (`quoteWith`) over the string, rune by rune; `skip` counts
the bytes still to pass over of the rune handled last. -/
def quoteRunes : Nat → Bytes → Bytes
  | _, [] => []
  | skip + 1, _ :: rest => quoteRunes skip rest
  | 0, c :: rest =>
    match decodeRune (c :: rest) with
    | none => quoteByte c ++ quoteRunes 0 rest
    | some (r, width) =>
      (if r < 128 then quoteByte r
       else if isPrint r then (c :: rest).take width
       else quoteHex r) ++ quoteRunes (width - 1) rest

/-- `strconv.Quote`: the double-quoted Go string literal of `s`. -/
def strconvQuote (s : Bytes) : Bytes := 34 :: (quoteRunes 0 s ++ [34])

/-- `strings.TrimLeft(s, " ")`. -/
def trimLeftSpace (s : Bytes) : Bytes := s.dropWhile (fun c => c = 32)

/-- `strings.Trim(s, " ")`. -/
def trimSpace (s : Bytes) : Bytes :=
  ((trimLeftSpace s).reverse.dropWhile (fun c => c = 32)).reverse

/-- The constant `imp` of `fetchImportPaths`. -/
def imp : Bytes := bytes "import "

/-- `fetchImportPaths` (mini.go 301-321). `none` is the slice-bounds panic of
`lit[2 : len(lit)-2]` when `len(lit) < 4`. -/
def fetchImportPaths (lit : Bytes) : Option Bytes :=
  if lit.length < 2 then some []
  else
    let inner : Option Bytes :=
      if lit.getD 1 0 = 42 then
        (if lit.length - 2 < 2 then none else some ((lit.take (lit.length - 2)).drop 2))
      else some (lit.drop 2)
    match inner with
    | none => none
    | some l =>
      let l := trimSpace l
      if ¬ imp.isPrefixOf l then some []
      else
        let l := trimLeftSpace (l.drop 7)
        if l.length < 3 ∨ l.getD 0 0 ≠ 34 ∨ l.getD (l.length - 1) 0 ≠ 34 then some []
        else some (imp ++ l)

/-! ## The compactor: `Mini` -/

/-- The error values the package produces or hands on. -/
inductive Error where
  /-- `ErrILLEGAL` -/
  | ILLEGAL
  /-- `fmt.Errorf("scanner: %d: %s", pos.Line, msg)` of `errorHandle` -/
  | scanner (line : Nat) (msg : Bytes)
  /-- `fmt.Errorf("Scanner.ErrorCount: %d", s.ErrorCount)` of `Write` -/
  | errorCount (n : Nat)
  /-- an error value returned by the output target -/
  | sink (code : Nat)
  deriving DecidableEq

/-- An output target over a state `σ`: the method `Write` of `io.Writer` and the method
`WriteString` of `stringWriter`; each returns the byte count, the error and the new
state of the target. -/
structure Writer (σ : Type) where
  Write : σ → Bytes → Int × Option Error × σ
  WriteString : σ → Bytes → Int × Option Error × σ

/-- The target `bytes.Buffer`: both methods append and never fail. -/
def bufferWriter : Writer Bytes where
  Write := fun b p => ((p.length : Int), none, b ++ p)
  WriteString := fun b p => ((p.length : Int), none, b ++ p)

/-- The struct `Mini` (mini.go 42-55). `out` is the state of the target that `w` and
`sw` point to; `file` and `fset` are not read by the code embedded here. -/
structure Mini (σ : Type) where
  w : σ → Bytes → Int × Option Error × σ
  sw : Option (σ → Bytes → Int × Option Error × σ)
  out : σ
  n : Int
  err : Option Error
  importPath : Int
  tok : Token
  ch : Nat
  lit : Bytes

/-- `New` (mini.go 60-71) for a target with both methods; `omitPath` is
`mode&OmitImportPath != 0`. -/
def New {σ : Type} (w : Writer σ) (out : σ) (omitPath : Bool) : Mini σ :=
  { w := w.Write, sw := some w.WriteString, out := out, n := 0, err := none,
    importPath := if omitPath then 0 else 1, tok := Token.ILLEGAL, ch := 0, lit := [] }

namespace Mini

variable {σ : Type}

/-- `errorHandle` (mini.go 83-85). -/
def errorHandle (m : Mini σ) (line : Nat) (msg : Bytes) : Mini σ :=
  { m with err := some (Error.scanner line msg) }

/-- `write` (mini.go 120-126): one byte, straight to the target. -/
def write (m : Mini σ) (ch : Nat) : Mini σ × Bool :=
  if m.err = none then
    let r := m.w m.out [ch]
    let m1 := { m with err := r.2.1, out := r.2.2, n := m.n + 1 }
    (m1, decide (m1.err = none))
  else (m, decide (m.err = none))

/-- `writeString` (mini.go 128-140). -/
def writeString (m : Mini σ) (s : Bytes) : Mini σ × Bool :=
  if m.err = none then
    let m0 := { m with ch := 0 }
    let r := match m0.sw with
      | none => m0.w m0.out s
      | some f => f m0.out s
    let m1 := { m0 with err := r.2.1, out := r.2.2, n := m0.n + r.1 }
    (m1, decide (m1.err = none))
  else (m, decide (m.err = none))

/-- `delay` (mini.go 88-117): a `,` or `;` is held back. `none` is
`panic("mini: internal error")`. -/
def delay (m : Mini σ) (ch : Nat) : Option (Mini σ × Bool) :=
  if m.ch = 0 then some ({ m with ch := ch }, true)
  else if m.ch = 59 then
    if m.tok = Token.FOR then
      some (if ch = 59 then { m with ch := 0, lit := bytes ";;" } else m, true)
    else if ch = 32 ∨ ch = 59 then some (m, true)
    else some (({ m with ch := 0 }).write ch)
  else if m.ch = 44 then some (m, true)
  else none

/-- The end of `WriteToken` after its `switch` (mini.go 275-290). -/
def finish (m : Mini σ) (tok : Token) (lit : Bytes) : Mini σ × Bool :=
  let m1 :=
    if m.lit ≠ [] then
      (if m.tok = Token.FOR then { (m.writeString (bytes ";;")).1 with lit := [] } else m)
    else if m.ch ≠ 0 then (m.write m.ch).1
    else m
  let m2 := { m1 with tok := tok }
  m2.writeString (if tok.IsOperator then tok.String else lit)

/-- `WriteToken` (mini.go 178-291); `pos` is not read by the code and is left out. The
`switch` is the chain of its cases in order. -/
def WriteToken (m : Mini σ) (tok : Token) (lit : Bytes) : Option (Mini σ × Bool) :=
  if m.err ≠ none ∨ m.tok = Token.EOF then some (m, false)
  else if tok = Token.STRING then
    match lit with
    | [] => none
    | c :: _ =>
      some (m.finish tok (if c = 96 then strconvQuote (lit.take (lit.length - 1)) else lit))
  else if tok = Token.COMMENT then
    if m.importPath = 3 then
      match fetchImportPaths lit with
      | none => none
      | some l =>
        let m1 := { m with importPath := 0 }
        some (if l ≠ [] then (m1.writeString l).1 else m1, true)
    else some (m, true)
  else if tok = Token.COMMA then m.delay 44
  else if tok = Token.SEMICOLON then
    (if m.importPath = 3 then { m with importPath := 0 } else m).delay 59
  else if tok = Token.CASE then
    some ((if m.tok.IsKeyword then { (m.write 59).1 with ch := 0 } else m).finish tok lit)
  else if tok = Token.MUL then
    some ((if m.tok = Token.QUO then { (m.write 32).1 with ch := 0 } else m).finish tok lit)
  else if tok = Token.EOF then some ({ m with tok := tok }, false)
  else if tok = Token.IMPORT then
    some ((if m.importPath = 1 then { m with importPath := 2 } else m).finish tok lit)
  else if tok = Token.ILLEGAL then
    some ({ m with tok := tok, err := some Error.ILLEGAL }, false)
  else if isR tok then some (({ m with ch := 0 }).finish tok lit)
  else
    let m1 := if m.importPath = 2 ∧ tok = Token.IDENT then { m with importPath := 3 } else m
    if m1.tok.IsKeyword ∧ ¬ tok.IsOperator then
      some ((if m1.lit = [] then { (m1.write 32).1 with ch := 0 } else m1).finish tok lit)
    else if m1.tok.IsLiteral then
      if isL tok then some (m1.finish tok lit)
      else if m1.ch = 59 then some (m1.finish tok lit)
      else if ¬ tok.IsOperator then
        some ((if m1.ch = 0 then (m1.write 32).1 else m1).finish tok lit)
      else some (m1.finish tok lit)
    else some (m1.finish tok lit)

end Mini

/-- One result of `Scanner.Scan`: position, token, literal, and the errors the scanner
reported to its error handler during the call (line and message). -/
structure Scanned where
  pos : Int
  tok : Token
  lit : Bytes
  errs : List (Nat × Bytes) := []

namespace Mini

variable {σ : Type}

/-- The loop `for s.ErrorCount == 0 && m.WriteToken(s.Scan()) {}` of `Write`
(mini.go 160-161) over the results the scanner delivers; once the list is used up the
scanner is at the end of the source and `Scan` returns `token.EOF`. The second
component is `s.ErrorCount`. -/
def writeLoop (m : Mini σ) (errorCount : Nat) : List Scanned → Option (Mini σ × Nat)
  | [] =>
    if errorCount ≠ 0 then some (m, errorCount)
    else (m.WriteToken Token.EOF []).map (fun r => (r.1, errorCount))
  | s :: rest =>
    if errorCount ≠ 0 then some (m, errorCount)
    else
      let m1 := s.errs.foldl (fun a e => a.errorHandle e.1 e.2) m
      match m1.WriteToken s.tok s.lit with
      | none => none
      | some (m2, true) => writeLoop m2 (errorCount + s.errs.length) rest
      | some (m2, false) => some (m2, errorCount + s.errs.length)

/-- `Write` (mini.go 152-168) on the results `scan` that the scanner (mode 0) delivers
for `src`: the returned count, the returned error, and the target. -/
def Write (m : Mini σ) (scan : List Scanned) : Option (Int × Option Error × σ) :=
  match m.writeLoop 0 scan with
  | none => none
  | some (m1, errorCount) =>
    let m2 := if m1.err = none ∧ errorCount ≠ 0 then
      { m1 with err := some (Error.errorCount errorCount) } else m1
    some (m2.n, m2.err, m2.out)

end Mini

/-! ## The minimality verifier: `Examine` -/

/-- The error value `errorString(info)` that `Examine` returns (mini.go 430-438):
either the text set by the error handler of the scanner, `"error handing " + msg`, or the
formatted report of the position and of the two token texts, with (`spaced`) or
without a blank between them. -/
inductive ExamineError where
  | handing (msg : Bytes)
  | report (spaced : Bool) (pos : Int) (txt lit : Bytes)
  deriving DecidableEq

/-- The variables of `Examine` that live across iterations of its loop (mini.go
324-332), with their Go zero values. `info = none` is the empty string. -/
structure ExamineState where
  info : Option Bytes := none
  endPos : Int := 0
  pre : Token := Token.ILLEGAL
  txt : Bytes := []
  isForSemi : Int := 0
  i : Int := 0

/-- The rules of `Examine` for a gap of one byte (mini.go 369-389); `true` is `break`. -/
def oneByteGapBreaks (pre tok : Token) : Bool :=
  if ¬ (pre.IsKeyword ∨ tok.IsKeyword ∨ (pre = Token.IDENT ∧ tok = Token.IDENT) ∨
      (pre = Token.QUO ∧ tok = Token.MUL)) then true
  else if pre = Token.FOR ∧ (tok = Token.SEMICOLON ∨ tok = Token.LBRACE) then true
  else if isL tok then true
  else false

/-- The rules of `Examine` for a gap of no byte (mini.go 390-420): `none` is `break`,
otherwise the new value of `isForSemi`. -/
def noGapRules (pre tok : Token) (isForSemi : Int) : Option Int :=
  if pre = Token.QUO ∧ tok = Token.MUL then none
  else if isForSemi = 2 ∧ tok = Token.LBRACE then none
  else
    let f1 : Int := if isForSemi = 2 then 0 else isForSemi
    let f2 : Option Int :=
      if (pre = Token.SEMICOLON ∨ pre = Token.COMMA) ∧ (tok = pre ∨ isR tok) then
        (if tok = Token.SEMICOLON ∧ f1 = 1 then some 2 else none)
      else some f1
    match f2 with
    | none => none
    | some f => some (if pre = Token.FOR ∧ tok = Token.SEMICOLON then 1 else f)

/-- The value returned after `break` (mini.go 430-438). -/
def examineReport (info : Option Bytes) (offset pos : Int) (txt lit : Bytes) :
    ExamineError :=
  match info with
  | some msg => ExamineError.handing msg
  | none => ExamineError.report (decide (offset = 1)) pos txt lit

/-- The loop of `Examine` (mini.go 342-428) over the results the scanner (mode
`ScanComments`) delivers for `src`; `size` is `len(src)`, and a position is a
`token.Pos` of a file of base 1, that is, byte offset plus one. Once the list is used up
`Scan` returns `token.EOF`. Outer `none` is a panic, `some none` is the result `nil`. -/
def examineLoop (size : Int) (st : ExamineState) :
    List Scanned → Option (Option ExamineError)
  | [] => some none
  | s :: rest =>
    let info : Option Bytes :=
      s.errs.foldl (fun _ e => some (bytes "error handing " ++ e.2)) st.info
    let i := st.i + 1
    if s.tok = Token.EOF then some none
    else if s.pos > size then examineLoop size { st with info := info, i := i } rest
    else
      let offset := s.pos - st.endPos
      let stop : Option (Option ExamineError) :=
        some (some (examineReport info offset s.pos st.txt s.lit))
      if s.tok = Token.ILLEGAL ∨ s.lit = [10] ∨ offset > 1 then stop
      else
        let pragma : Option Bool :=
          if i = 4 ∧ s.tok = Token.COMMENT then
            (fetchImportPaths s.lit).map (fun p => decide (p = []))
          else some false
        match pragma with
        | none => none
        | some true => stop
        | some false =>
          if s.tok = Token.COMMENT then stop
          else if offset = 1 ∧ oneByteGapBreaks st.pre s.tok then stop
          else
            let semi : Option Int :=
              if offset = 0 then noGapRules st.pre s.tok st.isForSemi else some st.isForSemi
            match semi with
            | none => stop
            | some f =>
              let lit := if s.tok.IsOperator then s.tok.String else s.lit
              examineLoop size
                { info := info, endPos := s.pos + lit.length, pre := s.tok, txt := lit,
                  isForSemi := f, i := i } rest

/-- `Examine` (mini.go 323-439) on the scan of a buffer of `size` bytes. -/
def Examine (size : Int) (scan : List Scanned) : Option (Option ExamineError) :=
  examineLoop size {} scan

/-! ## The equivalence checker: `compare`, `goInspect`, `Diff` -/

/-- An `*ast.Comment`: the position `Slash` and the `Text`. -/
structure Comment where
  slash : Int
  text : Bytes
  deriving DecidableEq

/-- `Comment.Pos`. -/
def Comment.Pos (c : Comment) : Int := c.slash

/-- `Comment.End`: `token.Pos(int(c.Slash) + len(c.Text))`. -/
def Comment.End (c : Comment) : Int := c.slash + c.text.length

/-- The dynamic type of an `ast.Node` with the fields `compare` reads. `File` carries
`Name.End()` and `Comments` (each group its `List`). `Other` is any node type that
`compare` has no case for (`*ast.BlockStmt`, `*ast.ValueSpec`, ...), told apart by a
number. -/
inductive NodeData where
  | AssignStmt (tok : Token)
  | BasicLit (kind : Token) (value : Bytes)
  | BinaryExpr (op : Token)
  | BranchStmt (tok : Token)
  | CallExpr (ellipsis : Int)
  | ChanType (dir : Int)
  | File (nameEnd : Int) (comments : List (List Comment))
  | GenDecl (tok : Token)
  | Ident (name : Bytes)
  | IncDecStmt (tok : Token)
  | InterfaceType (incomplete : Bool)
  | Package (name : Bytes)
  | RangeStmt (tok : Token)
  | StructType (incomplete : Bool)
  | UnaryExpr (op : Token)
  | CommentGroup
  | Comment
  | Other (type : Nat)
  deriving DecidableEq

/-- `reflect.TypeOf` of a node, as a number. -/
def NodeData.typeOf : NodeData → Nat
  | AssignStmt _ => 0 | BasicLit _ _ => 1 | BinaryExpr _ => 2 | BranchStmt _ => 3
  | CallExpr _ => 4 | ChanType _ => 5 | File _ _ => 6 | GenDecl _ => 7 | Ident _ => 8
  | IncDecStmt _ => 9 | InterfaceType _ => 10 | Package _ => 11 | RangeStmt _ => 12
  | StructType _ => 13 | UnaryExpr _ => 14 | CommentGroup => 15 | Comment => 16
  | Other t => 17 + t

/-- A non-nil `ast.Node`: the address of the pointed-to struct, its type and fields, and
the nodes `ast.Walk` visits below it, in order. -/
inductive Node where
  | mk (addr : Nat) (data : NodeData) (children : List Node)

/-- The address of a node. -/
def Node.addr : Node → Nat
  | mk a _ _ => a

/-- The type and fields of a node. -/
def Node.data : Node → NodeData
  | mk _ d _ => d

/-- The children of a node. -/
def Node.children : Node → List Node
  | mk _ _ c => c

/-- The calls `f(n)` that `ast.Inspect(node, f)` makes while `f` returns true: the
node, the calls for its children, then `f(nil)`. -/
def Node.events : Node → List (Option Node)
  | mk a d c => some (mk a d c) :: (eventsList c ++ [none])
where
  /-- The calls for a list of children. -/
  eventsList : List Node → List (Option Node)
  | [] => []
  | k :: ks => k.events ++ eventsList ks

/-- `findComment` (compare.go 219-231). Outer `none` is the panic of `group.End()` on a
group with an empty `List`. -/
def findComment : List (List Comment) → Int → Option (Option Comment)
  | [], _ => some none
  | group :: rest, pos =>
    match group.getLast? with
    | none => none
    | some last =>
      if last.End < pos then findComment rest pos
      else
        match group.find? (fun c => decide (c.Pos ≥ pos)) with
        | some c => some (some c)
        | none => findComment rest pos

/-- The case `*ast.BasicLit` of `compare` (compare.go 113-131). `none` is an index or
slice out of range. -/
def compareBasicLit (xKind : Token) (xValue : Bytes) (yKind : Token) (yValue : Bytes) :
    Option Bool :=
  if xKind ≠ yKind then some false
  else if xValue = yValue then some true
  else if xKind ≠ Token.STRING then some false
  else
    match xValue, yValue with
    | [], _ => none
    | _ :: _, [] => none
    | x0 :: _, y0 :: _ =>
      if x0 = y0 then some false
      else if x0 = 96 then
        (if xValue.length < 2 then none
         else some (decide (strconvQuote ((xValue.take (xValue.length - 1)).drop 1) = yValue)))
      else
        (if yValue.length < 2 then none
         else some (decide (xValue = strconvQuote ((yValue.take (yValue.length - 1)).drop 1))))

/-- The case `*ast.File` of `compare` (compare.go 149-181). -/
def compareFile (xpos : Int) (xComments : List (List Comment)) (ypos : Int)
    (yComments : List (List Comment)) : Option Bool :=
  match findComment xComments xpos, findComment yComments ypos with
  | none, _ => none
  | _, none => none
  | some xc, some yc =>
    if xc = none ∧ yc = none then some true
    else
      let px : Option (Int × Bytes) := match xc with
        | none => some (10, [])
        | some c => (fetchImportPaths c.text).map (fun t => (c.Pos - xpos, t))
      let py : Option (Int × Bytes) := match yc with
        | none => some (10, [])
        | some c => (fetchImportPaths c.text).map (fun t => (c.Pos - ypos, t))
      match px, py with
      | none, _ => none
      | _, none => none
      | some (xoffset, xpath), some (yoffset, ypath) =>
        if xpath ≠ ypath then some false
        else if xpath = [] then some true
        else some (decide (xoffset < 2) && decide (yoffset < 2) && decide (xpath = ypath))

/-- `compare` on two nodes of the same dynamic type (compare.go 109-215). -/
def compareData : NodeData → NodeData → Option Bool
  | .AssignStmt x, .AssignStmt y => some (decide (x = y))
  | .BasicLit xk xv, .BasicLit yk yv => compareBasicLit xk xv yk yv
  | .BinaryExpr x, .BinaryExpr y => some (decide (x = y))
  | .BranchStmt x, .BranchStmt y => some (decide (x = y))
  | .CallExpr x, .CallExpr y => some (decide (x = y))
  | .ChanType x, .ChanType y => some (decide (x = y))
  | .File xp xc, .File yp yc => compareFile xp xc yp yc
  | .GenDecl x, .GenDecl y => some (decide (x = y))
  | .Ident x, .Ident y => some (decide (x = y))
  | .IncDecStmt x, .IncDecStmt y => some (decide (x = y))
  | .InterfaceType x, .InterfaceType y => some (!(x || y))
  | .Package x, .Package y => some (decide (x = y))
  | .RangeStmt x, .RangeStmt y => some (decide (x = y))
  | .StructType x, .StructType y => some (!(x || y))
  | .UnaryExpr x, .UnaryExpr y => some (decide (x = y))
  | _, _ => some true

/-- `compare` (compare.go 104-216) on two interface values (`none` is `nil`): false when
the dynamic types differ. Outer `none` is a panic. -/
def compare : Option Node → Option Node → Option Bool
  | none, none => some true
  | some a, some b =>
    if a.data.typeOf ≠ b.data.typeOf then some false else compareData a.data b.data
  | _, _ => some false

/-- The test `na == nb` on interface values: both nil, or the same type and address. -/
def sameNode : Option Node → Option Node → Bool
  | none, none => true
  | some a, some b => decide (a.data.typeOf = b.data.typeOf) && decide (a.addr = b.addr)
  | _, _ => false

/-- Whether the node is an `*ast.CommentGroup` or an `*ast.Comment`. -/
def NodeData.isComment : NodeData → Bool
  | .CommentGroup => true
  | .Comment => true
  | _ => false

/-- One call of the function that `goInspect` hands to `ast.Inspect` (compare.go 19-46),
while the consumer answers every node with `nil` (not with `closeNode`): the new value
of `deep`, and what is sent on the channel, if anything. -/
def inspectCall (deep : Int) (n : Option Node) : Int × Option (Option Node) :=
  if deep < 0 then (deep, none)
  else
    match n with
    | some x =>
      if x.data.isComment then (deep + 1, none)
      else (if deep + 1 = 0 then -1 else deep + 1, some (some x))
    | none =>
      if deep - 1 ≠ 0 then (deep - 1, none)
      else (-1, some none)

/-- The values sent on the channel for a list of calls, from a value of `deep`. -/
def inspectSends (deep : Int) : List (Option Node) → List (Option Node)
  | [] => []
  | e :: es =>
    match inspectCall deep e with
    | (d, none) => inspectSends d es
    | (d, some v) => v :: inspectSends d es

/-- `goInspect` (compare.go 16-49): the values the channel delivers, in order, as long as
the consumer answers `nil`; after them the channel is closed. -/
def goInspect (node : Node) : List (Option Node) := inspectSends 0 node.events

/-- The loop of `Diff` (compare.go 71-89) over what the two channels deliver; a closed
channel delivers `nil`, and a send on it (`ca <- nil`) panics. -/
def diffLoop : List (Option Node) → List (Option Node) →
    Option (Option Node × Option Node)
  | [], cb =>
    let nb := cb.headD none
    if sameNode none nb then some (none, none)
    else
      match compare none nb with
      | some false => some (none, nb)
      | _ => none
  | na :: ca, cb =>
    let nb := cb.headD none
    if sameNode na nb then some (none, none)
    else
      match compare na nb with
      | none => none
      | some false => some (na, nb)
      | some true => diffLoop ca cb.tail

/-- `Diff` (compare.go 64-90). Outer `none` is a panic inside `compare`. -/
def Diff (a b : Option Node) : Option (Option Node × Option Node) :=
  match a, b with
  | some x, some y => diffLoop (goInspect x) (goInspect y)
  | _, _ => some (a, b)

/-- `Compare` (compare.go 98-101). -/
def Compare (a b : Option Node) : Option Bool :=
  (Diff a b).map (fun r => sameNode r.1 r.2)

/-! ## Scans used below

Unless its description says otherwise, a token sequence is the one `go/scanner` delivers
for the source quoted with it; an operator comes with the empty literal, an automatically
inserted terminator with the literal `"\n"`. -/

/-- A scan result without scanner error, for the compactor (which does not read
positions). -/
def tk (tok : Token) (lit : String) : Scanned := { pos := 0, tok := tok, lit := bytes lit }

/-- A scan result without scanner error at `token.Pos` `pos`. -/
def tp (pos : Int) (tok : Token) (lit : String) : Scanned :=
  { pos := pos, tok := tok, lit := bytes lit }

/-- What a fresh compactor in the default mode writes to an empty buffer. -/
def compact (scan : List Scanned) : Option Bytes :=
  ((New bufferWriter [] false).Write scan).map (fun r => r.2.2)

/-- The non-comment nodes of a tree in pre-order (depth first, children in order). -/
def Node.preorder : Node → List Node
  | mk a d c => (if d.isComment then [] else [mk a d c]) ++ preorderList c
where
  /-- The same for a list of children. -/
  preorderList : List Node → List Node
  | [] => []
  | k :: ks => k.preorder ++ preorderList ks

/-- A tree with its comment nodes deleted (nothing is left of a comment node). -/
def Node.strip : Node → List Node
  | mk a d c => if d.isComment then [] else [mk a d (stripList c)]
where
  /-- The same for a list of children. -/
  stripList : List Node → List Node
  | [] => []
  | k :: ks => k.strip ++ stripList ks

/-- Two trees have the same shape and `compare` holds at every pair of corresponding
nodes: the nodes compare equal and have the same number of children, which are related
in the same way, in order. -/
def Node.sameTree : Node → Node → Bool
  | mk a d c, b =>
    decide (compare (some (mk a d c)) (some b) = some true) && sameList c b.children
where
  /-- The same for two lists of children. -/
  sameList : List Node → List Node → Bool
  | [], ys => ys.isEmpty
  | x :: xs, ys =>
    match ys with
    | [] => false
    | y :: rest => x.sameTree y && sameList xs rest

/-- Equivalence modulo comments in the words of the specification: after deleting the
comment nodes the two trees have the same shape and corresponding nodes compare equal. -/
def equivalentModuloComments (a b : Node) : Bool :=
  match a.strip, b.strip with
  | [], [] => true
  | [x], [y] => x.sameTree y
  | _, _ => false

/-- The addresses of the two nodes `Diff` returns. -/
def diffAddrs (a b : Option Node) : Option (Option Nat × Option Nat) :=
  (Diff a b).map (fun r => (r.1.map Node.addr, r.2.map Node.addr))

/-- The results of scanning `package p\n\nfunc f() {\n\treturn 1\n}\n`. -/
def srcPackageFunc : List Scanned :=
  [tk .PACKAGE "package", tk .IDENT "p", tk .SEMICOLON "\n", tk .FUNC "func", tk .IDENT "f",
   tk .LPAREN "", tk .RPAREN "", tk .LBRACE "", tk .RETURN "return", tk .INT "1",
   tk .SEMICOLON "\n", tk .RBRACE "", tk .SEMICOLON "\n", tk .EOF ""]

/-- The results of scanning the buffer `package p;func f(){return 1}` (28 bytes). -/
def rescanPackageFunc : List Scanned :=
  [tp 1 .PACKAGE "package", tp 9 .IDENT "p", tp 10 .SEMICOLON ";", tp 11 .FUNC "func",
   tp 16 .IDENT "f", tp 17 .LPAREN "", tp 18 .RPAREN "", tp 19 .LBRACE "",
   tp 20 .RETURN "return", tp 27 .INT "1", tp 28 .RBRACE "", tp 29 .SEMICOLON "\n",
   tp 29 .EOF ""]

/-- The results of scanning the fragment `x = 1\n`. -/
def srcAssign : List Scanned :=
  [tk .IDENT "x", tk .ASSIGN "", tk .INT "1", tk .SEMICOLON "\n", tk .EOF ""]

/-- The results of scanning the buffer `x=1` (3 bytes). -/
def rescanAssign : List Scanned :=
  [tp 1 .IDENT "x", tp 2 .ASSIGN "", tp 3 .INT "1", tp 4 .SEMICOLON "\n", tp 4 .EOF ""]

/-- The results of scanning `x op1 op2 y\n` for two operator tokens. -/
def srcOperators (op1 op2 : Token) : List Scanned :=
  [tk .IDENT "x", tk op1 "", tk op2 "", tk .IDENT "y", tk .SEMICOLON "\n", tk .EOF ""]

/-- The results of scanning `x op y\n` for one operator token. -/
def srcOperator (op : Token) : List Scanned :=
  [tk .IDENT "x", tk op "", tk .IDENT "y", tk .SEMICOLON "\n", tk .EOF ""]

/-- The results of scanning `for i := 0; ; i++ {\n}\n`. -/
def srcForPost : List Scanned :=
  [tk .FOR "for", tk .IDENT "i", tk .DEFINE "", tk .INT "0", tk .SEMICOLON ";",
   tk .SEMICOLON ";", tk .IDENT "i", tk .INC "", tk .LBRACE "", tk .RBRACE "",
   tk .SEMICOLON "\n", tk .EOF ""]

/-- The results of scanning `for i := 0; i++ {\n}\n`: one terminator in the header. -/
def srcForOneTerminator : List Scanned :=
  [tk .FOR "for", tk .IDENT "i", tk .DEFINE "", tk .INT "0", tk .SEMICOLON ";",
   tk .IDENT "i", tk .INC "", tk .LBRACE "", tk .RBRACE "", tk .SEMICOLON "\n", tk .EOF ""]

/-- The results of scanning `for ; ; i++ {\n}\n`. -/
def srcForPostOnly : List Scanned :=
  [tk .FOR "for", tk .SEMICOLON ";", tk .SEMICOLON ";", tk .IDENT "i", tk .INC "",
   tk .LBRACE "", tk .RBRACE "", tk .SEMICOLON "\n", tk .EOF ""]

/-- The results of scanning `package name\n// import "name"\n` in mode 0, the mode
`Write` sets: the scanner skips comments. -/
def srcPragmaNextLine : List Scanned :=
  [tk .PACKAGE "package", tk .IDENT "name", tk .SEMICOLON "\n", tk .EOF ""]

/-- The results of scanning `package name\n// import "name"\n` with comments, as a
scan looker running with `WriteToken` would see them. -/
def srcPragmaNextLineComments : List Scanned :=
  [tk .PACKAGE "package", tk .IDENT "name", tk .SEMICOLON "\n",
   tk .COMMENT "// import \"name\"", tk .EOF ""]

/-- The results of scanning `package p\n\nvar x = a & ^b\n`. -/
def srcAndXor : List Scanned :=
  [tk .PACKAGE "package", tk .IDENT "p", tk .SEMICOLON "\n", tk .VAR "var", tk .IDENT "x",
   tk .ASSIGN "", tk .IDENT "a", tk .AND "", tk .XOR "", tk .IDENT "b", tk .SEMICOLON "\n",
   tk .EOF ""]

/-- The results of scanning `package p\n\nvar x = a &^ b\n`. -/
def srcAndNot : List Scanned :=
  [tk .PACKAGE "package", tk .IDENT "p", tk .SEMICOLON "\n", tk .VAR "var", tk .IDENT "x",
   tk .ASSIGN "", tk .IDENT "a", tk .AND_NOT "", tk .IDENT "b", tk .SEMICOLON "\n",
   tk .EOF ""]

/-- The tree `go/parser` builds for `package p\n\nvar x = a & ^b\n`: File (Name p,
Decls: GenDecl var (ValueSpec (Names x, Values: BinaryExpr & (a, UnaryExpr ^ (b))))).
`Other 1` is `*ast.ValueSpec`. The file has no comment, so the position of the package
name is not read. -/
def treeAndXor : Node :=
  .mk 1 (.File 10 []) [
    .mk 2 (.Ident (bytes "p")) [],
    .mk 3 (.GenDecl .VAR) [
      .mk 4 (.Other 1) [
        .mk 5 (.Ident (bytes "x")) [],
        .mk 6 (.BinaryExpr .AND) [
          .mk 7 (.Ident (bytes "a")) [],
          .mk 8 (.UnaryExpr .XOR) [.mk 9 (.Ident (bytes "b")) []]]]]]

/-- The tree `go/parser` builds for `package p;var x=a&^b`: the value is
BinaryExpr &^ (a, b). -/
def treeAndNot : Node :=
  .mk 101 (.File 10 []) [
    .mk 102 (.Ident (bytes "p")) [],
    .mk 103 (.GenDecl .VAR) [
      .mk 104 (.Other 1) [
        .mk 105 (.Ident (bytes "x")) [],
        .mk 106 (.BinaryExpr .AND_NOT) [
          .mk 107 (.Ident (bytes "a")) [],
          .mk 109 (.Ident (bytes "b")) []]]]]

/-- The block statement `{{}{}}`; `Other 0` is `*ast.BlockStmt`. -/
def blockTwoInside : Node :=
  .mk 1 (.Other 0) [.mk 2 (.Other 0) [], .mk 3 (.Other 0) []]

/-- The block statement `{{{}}}`. -/
def blockNested : Node :=
  .mk 11 (.Other 0) [.mk 12 (.Other 0) [.mk 13 (.Other 0) []]]

/-- The tree of the block statement `{if a {b()} else {c()}}`, whose second inner block
is the `Else` of the `if` statement; `Other 2` is `*ast.IfStmt`, `Other 3` is
`*ast.ExprStmt`. `ast.Walk` visits `Cond`, `Body` and `Else` of an `*ast.IfStmt` in this
order. -/
def treeIfElse : Node :=
  .mk 21 (.Other 0) [
    .mk 22 (.Other 2) [
      .mk 23 (.Ident (bytes "a")) [],
      .mk 24 (.Other 0) [
        .mk 25 (.Other 3) [.mk 26 (.CallExpr 0) [.mk 27 (.Ident (bytes "b")) []]]],
      .mk 28 (.Other 0) [
        .mk 29 (.Other 3) [.mk 30 (.CallExpr 0) [.mk 31 (.Ident (bytes "c")) []]]]]]

/-- The tree of the block statement `{if a {b()}; {c()}}`, whose second inner block is
the statement after the `if` statement, so `c()` is called whatever `a` is. -/
def treeIfThenBlock : Node :=
  .mk 41 (.Other 0) [
    .mk 42 (.Other 2) [
      .mk 43 (.Ident (bytes "a")) [],
      .mk 44 (.Other 0) [
        .mk 45 (.Other 3) [.mk 46 (.CallExpr 0) [.mk 47 (.Ident (bytes "b")) []]]]],
    .mk 48 (.Other 0) [
      .mk 49 (.Other 3) [.mk 50 (.CallExpr 0) [.mk 51 (.Ident (bytes "c")) []]]]]

/-- The token of the raw string literal whose content is `abc`. -/
def rawAbc : Bytes := bytes "`abc`"

/-- A token sequence handed to `WriteToken` call by call: `import`, the name `x`, a
block comment spanning two lines, the string `"y"`, a terminator and the end. It is not
what `go/scanner` reports for `import x /* import "a\nb" */ "y"\n`: after a name the
scanner reports a terminator `"\n"` ahead of a comment that contains a line break. -/
def srcImportComment : List Scanned :=
  [tk .IMPORT "import", tk .IDENT "x", tk .COMMENT "/* import \"a\nb\" */",
   tk .STRING "\"y\"", tk .SEMICOLON "\n", tk .EOF ""]

/-- The results of scanning, with comments, the source
`package p\n\nimport "y"\n\nvar a = ( /* import "a\nb" */ 1)\n`: the block comment spans
two lines and follows `(`, after which the scanner inserts no terminator. -/
def srcVarPragmaComment : List Scanned :=
  [tk .PACKAGE "package", tk .IDENT "p", tk .SEMICOLON "\n", tk .IMPORT "import",
   tk .STRING "\"y\"", tk .SEMICOLON "\n", tk .VAR "var", tk .IDENT "a", tk .ASSIGN "",
   tk .LPAREN "", tk .COMMENT "/* import \"a\nb\" */", tk .INT "1", tk .RPAREN "",
   tk .SEMICOLON "\n", tk .EOF ""]

/-! ## Spans of tokens in the source -/

/-- The text the compactor writes for a token: the canonical spelling of an operator,
else the literal (mini.go 287-290). -/
def Scanned.text (s : Scanned) : Bytes := if s.tok.IsOperator then s.tok.String else s.lit

/-- Where the compactor writes a byte that is in no token, before the token `tok` that
follows the tokens `before` (the latest first; `ILLEGAL`, the zero value of `m.tok`,
stands for no token): a blank between `/` and `*`; a third `;` between `for;;` and
`case`; a blank, or `;` before `case`, between a keyword and a keyword or literal other
than a string literal or `import`; a blank between a literal and a keyword or literal
other than a string literal, `import` or `case`. -/
def needsGap (before : List Token) (tok : Token) : Bool :=
  (decide (before.headD Token.ILLEGAL = Token.QUO) && decide (tok = Token.MUL)) ||
  (decide (before.take 3 = [Token.SEMICOLON, Token.SEMICOLON, Token.FOR]) &&
    decide (tok = Token.CASE)) ||
  ((tok.IsKeyword || tok.IsLiteral) && decide (tok ≠ Token.STRING) &&
    decide (tok ≠ Token.IMPORT) &&
    ((before.headD Token.ILLEGAL).IsKeyword ||
      ((before.headD Token.ILLEGAL).IsLiteral && decide (tok ≠ Token.CASE))))

/-- A string literal token is not empty and is no raw string literal (it does not start
with a backquote); a comment token is not empty, and one whose second byte is `*` (a
block comment) has at least four bytes. -/
def Scanned.plain (s : Scanned) : Bool :=
  if s.tok = Token.STRING then decide (s.lit ≠ []) && decide (s.lit.head? ≠ some 96)
  else if s.tok = Token.COMMENT then
    decide (s.lit ≠ []) && (decide (s.lit.getD 1 0 ≠ 42) || decide (4 ≤ s.lit.length))
  else true

/-- The tokens up to the first end marker occupy disjoint spans of a source that ends
at `limit`, in order, each span as long as the text written for the token, after the
position `prevEnd` where the latest of the tokens `before` ended; only a terminator may
end past `limit` (the one inserted at the end of the source); every token is `plain`; and
where `needsGap` holds at least one byte lies between the token and the one before it.
The end marker, after which nothing is read, and what follows it are under no
condition. -/
def fitsSource (limit : Int) : Int → List Token → List Scanned → Bool
  | _, _, [] => true
  | prevEnd, before, s :: rest =>
    decide (s.tok = Token.EOF) ||
    (decide (prevEnd + (if needsGap before s.tok then 1 else 0) ≤ s.pos) &&
      (decide (s.tok = Token.SEMICOLON) || decide (s.pos + s.text.length ≤ limit)) &&
      s.plain && fitsSource limit (s.pos + s.text.length) (s.tok :: before) rest)

/-- The tokens occupy disjoint spans of a source that ends at `limit`, in order, each
span as long as the literal text (for an operator, its spelling), after the position
`prevEnd`; only a terminator may end past `limit`, and the end marker is under no
condition. -/
def spansDisjoint (limit : Int) : Int → List Scanned → Bool
  | _, [] => true
  | prevEnd, s :: rest =>
    decide (s.tok = Token.EOF) ||
    (decide (prevEnd ≤ s.pos) &&
      (decide (s.tok = Token.SEMICOLON) || decide (s.pos + s.text.length ≤ limit)) &&
      spansDisjoint limit (s.pos + s.text.length) rest)

/-- The results of scanning `package p\n\nfunc f() {\n\treturn 1\n}\n` (34 bytes), with
positions (file base 1). -/
def srcPackageFuncAt : List Scanned :=
  [tp 1 .PACKAGE "package", tp 9 .IDENT "p", tp 10 .SEMICOLON "\n", tp 12 .FUNC "func",
   tp 17 .IDENT "f", tp 18 .LPAREN "", tp 19 .RPAREN "", tp 21 .LBRACE "",
   tp 24 .RETURN "return", tp 31 .INT "1", tp 32 .SEMICOLON "\n", tp 33 .RBRACE "",
   tp 34 .SEMICOLON "\n", tp 35 .EOF ""]

/-- The formatted source with a raw string literal of eight backslashes (30 bytes). -/
def srcRawBackslashes : Bytes := bytes "package p\n\nvar s = `\\\\\\\\\\\\\\\\`\n"

/-- The results of scanning `srcRawBackslashes`, with positions (file base 1). -/
def srcRawBackslashesAt : List Scanned :=
  [tp 1 .PACKAGE "package", tp 9 .IDENT "p", tp 10 .SEMICOLON "\n", tp 12 .VAR "var",
   tp 16 .IDENT "s", tp 18 .ASSIGN "", tp 20 .STRING "`\\\\\\\\\\\\\\\\`",
   tp 30 .SEMICOLON "\n", tp 31 .EOF ""]

/-- The results of scanning the nine bytes `return` and the character literal of `a`,
with nothing between them, with positions (file base 1). -/
def srcReturnChar : List Scanned :=
  [tp 1 .RETURN "return", tp 7 .CHAR "\x27a\x27", tp 10 .SEMICOLON "\n", tp 10 .EOF ""]

/-- The results of scanning the nine bytes `for;;case`, with positions (file base 1). -/
def srcForCase : List Scanned :=
  [tp 1 .FOR "for", tp 4 .SEMICOLON ";", tp 5 .SEMICOLON ";", tp 6 .CASE "case",
   tp 10 .EOF ""]

/-- The results of scanning the two bytes `1x`, with positions (file base 1). -/
def srcIntIdent : List Scanned :=
  [tp 1 .INT "1", tp 2 .IDENT "x", tp 3 .SEMICOLON "\n", tp 3 .EOF ""]

/-- The tokens `/` and `*` on the two bytes `/*`, with positions (file base 1); a scanner
reads these two bytes as the start of a comment. -/
def srcQuoMul : List Scanned :=
  [tp 1 .QUO "", tp 2 .MUL "", tp 3 .EOF ""]

/-- The tokens `return`, a comment token with the empty literal, and the character literal
of `a`, on the nine bytes `return` and the literal, with positions (file base 1). -/
def srcReturnEmptyComment : List Scanned :=
  [tp 1 .RETURN "return", tp 7 .COMMENT "", tp 7 .CHAR "\x27a\x27", tp 10 .SEMICOLON "\n",
   tp 10 .EOF ""]

/-- A string literal token with the empty literal. -/
def srcEmptyString : List Scanned :=
  [tp 1 .STRING "", tp 1 .EOF ""]

/-- The tokens of the eleven bytes `import x(/*`, comments included, with positions (file
base 1): the last is the comment token of the unterminated block comment. -/
def srcImportOpenComment : List Scanned :=
  [tp 1 .IMPORT "import", tp 8 .IDENT "x", tp 9 .LPAREN "", tp 10 .COMMENT "/*",
   tp 12 .EOF ""]

/-- The results of scanning the 37 bytes `switch x{case 1:break;case 2:for;;{}}`, with
positions (file base 1). -/
def srcSwitchCompact : List Scanned :=
  [tp 1 .SWITCH "switch", tp 8 .IDENT "x", tp 9 .LBRACE "", tp 10 .CASE "case",
   tp 15 .INT "1", tp 16 .COLON "", tp 17 .BREAK "break", tp 22 .SEMICOLON ";",
   tp 23 .CASE "case", tp 28 .INT "2", tp 29 .COLON "", tp 30 .FOR "for",
   tp 33 .SEMICOLON ";", tp 34 .SEMICOLON ";", tp 35 .LBRACE "", tp 36 .RBRACE "",
   tp 37 .RBRACE "", tp 38 .SEMICOLON "\n", tp 38 .EOF ""]

/-- The output target is a buffer, no error is recorded, and the count is the length. -/
structure Mini.Buffered (m : Mini Bytes) : Prop where
  w : m.w = bufferWriter.Write
  sw : m.sw = some bufferWriter.WriteString
  err : m.err = none
  n : m.n = m.out.length

/-- The bytes `finish` writes before the text of the token. -/
def Mini.flushed (m : Mini Bytes) : Bytes :=
  if m.lit ≠ [] then (if m.tok = Token.FOR then bytes ";;" else [])
  else if m.ch ≠ 0 then [m.ch] else []

/-- The invariant of the compactor over a buffer, after the tokens `before` (the latest
first), the latest of which ends at `prevEnd`: what is written and what is pending fits
before `prevEnd`; unless the latest token is the one written last, one more byte fits, or
the pending text is the `;;` of `for;;` read just now; and a pending `;` directly follows
the token written last, or one more byte fits. -/
structure Mini.Fits (base limit prevEnd : Int) (before : List Token) (m : Mini Bytes) :
    Prop where
  buffered : m.Buffered
  ch : m.ch = 0 ∨ m.ch = 44 ∨ m.ch = 59
  lit : m.lit = [] ∨ (m.lit = bytes ";;" ∧ m.tok = Token.FOR)
  pend : base + m.out.length + m.lit.length + (if m.ch = 0 then 0 else 1) ≤ prevEnd
  adj : m.tok = before.headD Token.ILLEGAL ∨
    base + m.out.length + m.lit.length + 1 ≤ prevEnd ∨
    (m.lit ≠ [] ∧ before.take 3 = [Token.SEMICOLON, Token.SEMICOLON, Token.FOR])
  semi : m.ch = 59 → m.lit = [] →
    (before.headD Token.ILLEGAL = Token.SEMICOLON ∧
      before.tail.headD Token.ILLEGAL = m.tok) ∨
    base + m.out.length + 2 ≤ prevEnd
  lim : base + m.out.length ≤ limit


/-! ## Scans and traces for the phase, the errors and the verifier -/

/-- The results of scanning `for {\n}\n`. -/
def srcForEmpty : List Scanned :=
  [tk .FOR "for", tk .LBRACE "", tk .RBRACE "", tk .SEMICOLON "\n", tk .EOF ""]

/-- The results of scanning `for ; ; {}\n`. -/
def srcForTwoTerminators : List Scanned :=
  [tk .FOR "for", tk .SEMICOLON ";", tk .SEMICOLON ";", tk .LBRACE "", tk .RBRACE "",
   tk .SEMICOLON "\n", tk .EOF ""]

/-- The results of scanning the buffer `for;;{}` (7 bytes). -/
def rescanForTwoTerminators : List Scanned :=
  [tp 1 .FOR "for", tp 4 .SEMICOLON ";", tp 5 .SEMICOLON ";", tp 6 .LBRACE "",
   tp 7 .RBRACE "", tp 8 .SEMICOLON "\n", tp 8 .EOF ""]

/-- The results of scanning the buffer `package name;//import "name"` (28 bytes) with
comments. -/
def rescanPragmaFourth : List Scanned :=
  [tp 1 .PACKAGE "package", tp 9 .IDENT "name", tp 13 .SEMICOLON ";",
   tp 14 .COMMENT "//import \"name\"", tp 29 .EOF ""]

/-- The results of scanning the buffer `for;a;b{x;;y}` (13 bytes). -/
def rescanForBodyTerminators : List Scanned :=
  [tp 1 .FOR "for", tp 4 .SEMICOLON ";", tp 5 .IDENT "a", tp 6 .SEMICOLON ";",
   tp 7 .IDENT "b", tp 8 .LBRACE "", tp 9 .IDENT "x", tp 10 .SEMICOLON ";",
   tp 11 .SEMICOLON ";", tp 12 .IDENT "y", tp 13 .RBRACE "", tp 14 .SEMICOLON "\n",
   tp 14 .EOF ""]

/-- The results of scanning the buffer `if a{x;;y}` (10 bytes). -/
def rescanIfBodyTerminators : List Scanned :=
  [tp 1 .IF "if", tp 4 .IDENT "a", tp 5 .LBRACE "", tp 6 .IDENT "x", tp 7 .SEMICOLON ";",
   tp 8 .SEMICOLON ";", tp 9 .IDENT "y", tp 10 .RBRACE "", tp 11 .SEMICOLON "\n",
   tp 11 .EOF ""]

/-- The results of scanning `return\ndefault:\n`. -/
def srcReturnDefault : List Scanned :=
  [tk .RETURN "return", tk .SEMICOLON "\n", tk .DEFAULT "default", tk .COLON "", tk .EOF ""]

/-- The results of scanning `return\ncase 1:\n`. -/
def srcReturnCase : List Scanned :=
  [tk .RETURN "return", tk .SEMICOLON "\n", tk .CASE "case", tk .INT "1", tk .COLON "",
   tk .EOF ""]

/-- The results of scanning `for ; i < n; i++ {\n}\n`. -/
def srcForCondition : List Scanned :=
  [tk .FOR "for", tk .SEMICOLON ";", tk .IDENT "i", tk .LSS "", tk .IDENT "n",
   tk .SEMICOLON ";", tk .IDENT "i", tk .INC "", tk .LBRACE "", tk .RBRACE "",
   tk .SEMICOLON "\n", tk .EOF ""]

/-- The results of scanning `for i < n; i++ {\n}\n`. -/
def srcForNoFirstTerminator : List Scanned :=
  [tk .FOR "for", tk .IDENT "i", tk .LSS "", tk .IDENT "n",
   tk .SEMICOLON ";", tk .IDENT "i", tk .INC "", tk .LBRACE "", tk .RBRACE "",
   tk .SEMICOLON "\n", tk .EOF ""]

/-- The results of scanning the buffer `(x)` (3 bytes). -/
def rescanParen : List Scanned :=
  [tp 1 .LPAREN "", tp 2 .IDENT "x", tp 3 .RPAREN "", tp 4 .SEMICOLON "\n", tp 4 .EOF ""]

/-- The results of scanning the buffer `1+x` (3 bytes). -/
def rescanSum : List Scanned :=
  [tp 1 .INT "1", tp 2 .ADD "", tp 3 .IDENT "x", tp 4 .SEMICOLON "\n", tp 4 .EOF ""]

/-- The results of scanning the buffer `-x` (2 bytes). -/
def rescanNegation : List Scanned :=
  [tp 1 .SUB "", tp 2 .IDENT "x", tp 3 .SEMICOLON "\n", tp 3 .EOF ""]

/-- The results of scanning the buffer `go f()` (6 bytes). -/
def rescanGo : List Scanned :=
  [tp 1 .GO "go", tp 4 .IDENT "f", tp 5 .LPAREN "", tp 6 .RPAREN "", tp 7 .SEMICOLON "\n",
   tp 7 .EOF ""]

/-- The results of scanning the buffer `package p;/*` (12 bytes) with comments: the block
comment is not terminated, which the scanner reports to its error handler. -/
def rescanOpenComment : List Scanned :=
  [tp 1 .PACKAGE "package", tp 9 .IDENT "p", tp 10 .SEMICOLON ";",
   { pos := 11, tok := .COMMENT, lit := bytes "/*",
     errs := [(1, bytes "comment not terminated")] },
   tp 13 .EOF ""]

/-- A target both methods of which fail: they write nothing and return the error
`Error.sink 1`. -/
def failingWriter : Writer Bytes where
  Write := fun b _ => (0, some (Error.sink 1), b)
  WriteString := fun b _ => (0, some (Error.sink 1), b)

/-- The results of scanning `import x /* import "p" */ "y"\n` with comments. -/
def srcImportPragma : List Scanned :=
  [tk .IMPORT "import", tk .IDENT "x", tk .COMMENT "/* import \"p\" */", tk .STRING "\"y\"",
   tk .SEMICOLON "\n", tk .COMMENT "// import \"q\"", tk .EOF ""]

/-- The results of scanning the three bytes `"\q`: one call of `Scan` reports two
errors, the unknown escape and the string that is not terminated. -/
def srcTwoErrors : List Scanned :=
  [{ pos := 1, tok := .STRING, lit := bytes "\"\\q",
     errs := [(1, bytes "unknown escape sequence"),
              (1, bytes "string literal not terminated")] },
   tk .EOF ""]

/-- The phase of the import path after a token that passes the entry test of
`WriteToken`. -/
def phaseStep (p : Int) (tok : Token) : Int :=
  if p = 1 ∧ tok = Token.IMPORT then 2
  else if p = 2 ∧ tok = Token.IDENT then 3
  else if p = 3 ∧ (tok = Token.COMMENT ∨ tok = Token.SEMICOLON) then 0
  else p

/-- The scan results without the comment tokens. -/
def withoutComments (scan : List Scanned) : List Scanned :=
  scan.filter (fun s => decide (s.tok ≠ Token.COMMENT))

/-- One call of `WriteToken` made by the loop of `Write`: the compactor before the call,
the scan result handed over, the compactor after the call. -/
structure Call (σ : Type) where
  before : Mini σ
  scanned : Scanned
  after : Mini σ

/-- The calls of `WriteToken` that the loop of `Write` makes (see `Mini.writeLoop`), in
order, up to the call that returns false or panics; the last call, once the list is used
up, hands over the end marker. -/
def Mini.calls (m : Mini σ) (errorCount : Nat) : List Scanned → List (Call σ)
  | [] =>
    if errorCount ≠ 0 then []
    else
      match m.WriteToken Token.EOF [] with
      | none => []
      | some r => [⟨m, { pos := 0, tok := Token.EOF, lit := [] }, r.1⟩]
  | s :: rest =>
    if errorCount ≠ 0 then []
    else
      let m1 := s.errs.foldl (fun a e => a.errorHandle e.1 e.2) m
      match m1.WriteToken s.tok s.lit with
      | none => []
      | some (m2, true) => ⟨m1, s, m2⟩ :: calls m2 (errorCount + s.errs.length) rest
      | some (m2, false) => [⟨m1, s, m2⟩]

/-- The moves of the phase of the import path: none, 1 to 2 on `import`, 2 to 3 on an
identifier, 3 to 0 on a comment or a terminator. -/
def phaseMove (p : Int) (tok : Token) (q : Int) : Prop :=
  q = p ∨ (p = 1 ∧ tok = Token.IMPORT ∧ q = 2) ∨ (p = 2 ∧ tok = Token.IDENT ∧ q = 3) ∨
    (p = 3 ∧ (tok = Token.COMMENT ∨ tok = Token.SEMICOLON) ∧ q = 0)

/-- The call hands over a comment token and changes the bytes in the buffer. -/
def Call.commentWritten (c : Call Bytes) : Bool :=
  decide (c.scanned.tok = Token.COMMENT) && decide (c.after.out ≠ c.before.out)

/-- What holds of every call in a run over a buffer. -/
def Call.phaseOk (c : Call Bytes) : Prop :=
  (0 ≤ c.before.importPath ∧ c.before.importPath ≤ 3) ∧
  phaseMove c.before.importPath c.scanned.tok c.after.importPath ∧
  (c.scanned.tok = Token.COMMENT → c.after.out ≠ c.before.out →
    ∃ l, fetchImportPaths c.scanned.lit = some l ∧ c.after.out = c.before.out ++ l)


/-! ## Theorems -/

/-! ### What `goInspect` delivers -/

mutual
/-- Below the root (`deep` at least 1) the calls for a tree send its non-comment nodes in
pre-order and leave `deep` as it was. -/
theorem inspectSends_events (x : Node) (d : Int) (hd : 1 ≤ d) (rest : List (Option Node)) :
    inspectSends d (x.events ++ rest) = x.preorder.map some ++ inspectSends d rest := by
  cases x with
  | mk a dt c =>
    have ih := inspectSends_eventsList c (d + 1) (by omega) (none :: rest)
    simp only [Node.events, Node.preorder, List.cons_append, List.append_assoc,
      List.singleton_append]
    rw [inspectSends]
    by_cases hc : dt.isComment = true
    · simp [inspectCall, hc, Node.data, show ¬ d < 0 by omega]
      rw [ih]
      simp [inspectSends, inspectCall, show ¬ d + 1 < 0 by omega, show ¬ d = 0 by omega]
    · simp [inspectCall, hc, Node.data, show ¬ d < 0 by omega, show ¬ d + 1 = 0 by omega]
      rw [ih]
      simp [inspectSends, inspectCall, show ¬ d + 1 < 0 by omega, show ¬ d = 0 by omega]
/-- The same for a list of children. -/
theorem inspectSends_eventsList (c : List Node) (d : Int) (hd : 1 ≤ d)
    (rest : List (Option Node)) :
    inspectSends d (Node.events.eventsList c ++ rest)
      = (Node.preorder.preorderList c).map some ++ inspectSends d rest := by
  cases c with
  | nil => simp [Node.events.eventsList, Node.preorder.preorderList]
  | cons k ks =>
    simp only [Node.events.eventsList, Node.preorder.preorderList, List.append_assoc,
      List.map_append]
    rw [inspectSends_events k d hd, inspectSends_eventsList ks d hd]
end

/-- What `goInspect` delivers: the non-comment nodes in pre-order, then one `nil`. -/
theorem goInspect_eq_preorder (x : Node) :
    goInspect x = x.preorder.map some ++ [none] := by
  cases x with
  | mk a dt c =>
    have ih := inspectSends_eventsList c 1 (by omega) [none]
    simp only [goInspect, Node.events, Node.preorder]
    rw [inspectSends]
    by_cases hc : dt.isComment = true
    · simp [inspectCall, hc, Node.data]
      rw [ih]
      simp [inspectSends, inspectCall]
    · simp [inspectCall, hc, Node.data]
      rw [ih]
      simp [inspectSends, inspectCall]

/-- The loop of `Diff` on two streams of nodes that share no node, each ended by `nil`. -/
theorem diffLoop_nil_iff (la lb : List Node)
    (h : ∀ x ∈ la, ∀ y ∈ lb, sameNode (some x) (some y) = false) :
    diffLoop (la.map some ++ [none]) (lb.map some ++ [none]) = some (none, none) ↔
      List.Forall₂ (fun x y => compare (some x) (some y) = some true) la lb := by
  induction la generalizing lb with
  | nil =>
    cases lb with
    | nil => simp [diffLoop, sameNode]
    | cons y ys => simp [diffLoop, sameNode, compare]
  | cons x xs ih =>
    cases lb with
    | nil => simp [diffLoop, sameNode, compare]
    | cons y ys =>
      have hxy : sameNode (some x) (some y) = false := h x (by simp) y (by simp)
      have ih2 := ih ys (fun a ha b hb => h a (by simp [ha]) b (by simp [hb]))
      simp only [List.map_cons, List.cons_append, diffLoop, List.headD_cons, hxy,
        List.tail_cons, List.forall₂_cons]
      cases hc : compare (some x) (some y) with
      | none => simp
      | some r =>
        cases r with
        | false => simp
        | true => simpa using ih2


/-! ### The invariant of the compactor over a buffer -/

theorem Mini.write_buffered (m : Mini Bytes) (c : Nat) (h : m.Buffered) :
    m.write c = ({ m with out := m.out ++ [c], n := m.n + 1 }, true) := by
  simp [Mini.write, h.w, h.err, bufferWriter]

theorem Mini.writeString_buffered (m : Mini Bytes) (s : Bytes) (h : m.Buffered) :
    m.writeString s = ({ m with ch := 0, out := m.out ++ s, n := m.n + s.length }, true) := by
  simp [Mini.writeString, h.w, h.sw, h.err, bufferWriter]

theorem Mini.finish_buffered (m : Mini Bytes) (tok : Token) (lit : Bytes) (h : m.Buffered) :
    m.finish tok lit =
      ({ m with
          tok := tok, ch := 0,
          lit := if m.tok = Token.FOR then [] else m.lit,
          out := m.out ++ m.flushed ++ (if tok.IsOperator then tok.String else lit),
          n := m.n + m.flushed.length + (if tok.IsOperator then tok.String else lit).length },
        true) := by
  obtain ⟨hw, hsw, herr, hn⟩ := h
  unfold Mini.finish Mini.flushed
  by_cases hl : m.lit = []
  · by_cases hc : m.ch = 0
    · simp [hl, hc, Mini.writeString, hw, hsw, herr, bufferWriter]
    · simp [hl, hc, Mini.writeString, Mini.write, hw, hsw, herr, bufferWriter, add_assoc]
  · by_cases ht : m.tok = Token.FOR
    · simp [hl, ht, Mini.writeString, hw, hsw, herr, bufferWriter, add_assoc]
    · simp [hl, ht, Mini.writeString, hw, hsw, herr, bufferWriter]


theorem Mini.flushed_length_le (m : Mini Bytes)
    (hl : m.lit = [] ∨ (m.lit = bytes ";;" ∧ m.tok = Token.FOR)) :
    (m.flushed.length : Int) ≤ m.lit.length + (if m.ch = 0 then 0 else 1) := by
  unfold Mini.flushed
  rcases hl with hl | ⟨hl, ht⟩
  · by_cases hc : m.ch = 0 <;> simp [hl, hc]
  · simp [hl, ht, bytes]
    split <;> omega

/-- A token written with `finish` re-establishes the invariant. -/
theorem Mini.finish_fits (base limit pos : Int) (before : List Token) (m : Mini Bytes)
    (tok : Token) (lit : Bytes)
    (hb : m.Buffered) (hl : m.lit = [] ∨ (m.lit = bytes ";;" ∧ m.tok = Token.FOR))
    (hpos : base + m.out.length + m.flushed.length ≤ pos)
    (hlim : pos + (if tok.IsOperator then tok.String else lit).length ≤ limit) :
    ∃ m1, m.finish tok lit = (m1, true) ∧
      m1.Fits base limit (pos + (if tok.IsOperator then tok.String else lit).length)
        (tok :: before) := by
  refine ⟨_, Mini.finish_buffered m tok lit hb, ?_⟩
  have hlit : (if m.tok = Token.FOR then [] else m.lit) = ([] : Bytes) := by
    rcases hl with hl | ⟨_, ht⟩
    · simp [hl]
    · simp [ht]
  constructor
  · exact ⟨hb.w, hb.sw, hb.err, by simp [hb.n]; omega⟩
  · simp
  · simp [hlit]
  · simp only [hlit, List.length_append, List.length_nil, if_true]
    push_cast
    omega
  · simp
  · intro h59
    simp at h59
  · simp only [List.length_append]
    push_cast
    omega

theorem length_trimLeftSpace_le (s : Bytes) : (trimLeftSpace s).length ≤ s.length := by
  unfold trimLeftSpace
  exact (List.dropWhile_sublist _).length_le

theorem length_trimSpace_le (s : Bytes) : (trimSpace s).length ≤ s.length := by
  unfold trimSpace
  rw [List.length_reverse]
  calc (List.dropWhile (fun c => decide (c = 32)) (trimLeftSpace s).reverse).length
      ≤ (trimLeftSpace s).reverse.length := (List.dropWhile_sublist _).length_le
    _ = (trimLeftSpace s).length := List.length_reverse _
    _ ≤ s.length := length_trimLeftSpace_le s

/-- On a comment of at least two bytes, of at least four when it is a block comment,
`fetchImportPaths` returns, and what it returns is at least two bytes shorter. -/
theorem fetchImportPaths_length (lit : Bytes) (h2 : 2 ≤ lit.length)
    (h4 : lit.getD 1 0 = 42 → 4 ≤ lit.length) :
    ∃ l, fetchImportPaths lit = some l ∧ l.length + 2 ≤ lit.length := by
  unfold fetchImportPaths
  rw [if_neg (by omega)]
  have key : ∀ l0 : Bytes, l0.length + 2 ≤ lit.length →
      ∃ l, (let l := trimSpace l0
        if ¬ imp.isPrefixOf l then some []
        else
          let l := trimLeftSpace (l.drop 7)
          if l.length < 3 ∨ l.getD 0 0 ≠ 34 ∨ l.getD (l.length - 1) 0 ≠ 34 then some []
          else some (imp ++ l)) = some l ∧ l.length + 2 ≤ lit.length := by
    intro l0 hl0
    have h1 := length_trimSpace_le l0
    by_cases hp : imp.isPrefixOf (trimSpace l0) = true
    · have hpre : imp <+: trimSpace l0 := List.isPrefixOf_iff_prefix.mp hp
      have h7 : 7 ≤ (trimSpace l0).length := by
        have := hpre.length_le
        simpa [imp, bytes] using this
      have h3 := length_trimLeftSpace_le ((trimSpace l0).drop 7)
      rw [List.length_drop] at h3
      simp only [hp, not_true_eq_false, if_false]
      split
      · exact ⟨[], rfl, by simp; omega⟩
      · refine ⟨_, rfl, ?_⟩
        rw [List.length_append]
        have : imp.length = 7 := by decide
        omega
    · simp only [hp, if_true]
      exact ⟨[], rfl, by simp; omega⟩
  by_cases hs : lit.getD 1 0 = 42
  · have := h4 hs
    simp only [hs, if_true]
    rw [if_neg (by omega)]
    exact key _ (by rw [List.length_drop, List.length_take]; omega)
  · simp only [hs, if_false]
    exact key _ (by rw [List.length_drop]; omega)

/-- On a comment that is not empty, of at least four bytes when its second byte is `*`,
`fetchImportPaths` returns, and what it returns is shorter. -/
theorem fetchImportPaths_shorter (lit : Bytes) (h1 : lit ≠ [])
    (h4 : lit.getD 1 0 = 42 → 4 ≤ lit.length) :
    ∃ l, fetchImportPaths lit = some l ∧ l.length + 1 ≤ lit.length := by
  by_cases h2 : 2 ≤ lit.length
  · obtain ⟨l, hl, hlen⟩ := fetchImportPaths_length lit h2 h4
    exact ⟨l, hl, by omega⟩
  · have hpos : 0 < lit.length := List.length_pos.mpr h1
    refine ⟨[], ?_, by simp; omega⟩
    unfold fetchImportPaths
    rw [if_pos (by omega)]

theorem Token.word_of_not_operator (tok : Token) :
    ¬ tok.IsOperator = true → tok ≠ Token.STRING → tok ≠ Token.COMMENT → tok ≠ Token.EOF →
    tok ≠ Token.IMPORT → tok ≠ Token.ILLEGAL →
    ((tok.IsKeyword || tok.IsLiteral) && decide (tok ≠ Token.STRING) &&
      decide (tok ≠ Token.IMPORT)) = true := by
  cases tok <;> decide

theorem needsGap_after_word (before : List Token) (tok : Token)
    (hpre : (before.headD Token.ILLEGAL).IsKeyword = true ∨
      ((before.headD Token.ILLEGAL).IsLiteral = true ∧ tok ≠ Token.CASE))
    (hop : ¬ tok.IsOperator = true) (h1 : tok ≠ Token.STRING) (h2 : tok ≠ Token.COMMENT)
    (h3 : tok ≠ Token.EOF) (h4 : tok ≠ Token.IMPORT) (h5 : tok ≠ Token.ILLEGAL) :
    needsGap before tok = true := by
  have ht := Token.word_of_not_operator tok hop h1 h2 h3 h4 h5
  unfold needsGap
  simp only [Bool.and_eq_true, Bool.or_eq_true, decide_eq_true_eq] at ht ⊢
  exact Or.inr ⟨⟨⟨ht.1.1, ht.1.2⟩, ht.2⟩, hpre⟩

/-- After `;` that follows `for;`, the latest three tokens are `for;;`. -/
theorem take_three_for (before : List Token)
    (h0 : before.headD Token.ILLEGAL = Token.SEMICOLON)
    (h1 : before.tail.headD Token.ILLEGAL = Token.FOR) :
    (Token.SEMICOLON :: before).take 3 = [Token.SEMICOLON, Token.SEMICOLON, Token.FOR] := by
  cases before with
  | nil => simp at h0
  | cons a r =>
    cases r with
    | nil => simp at h1
    | cons b r2 =>
      simp only [List.headD_cons, List.tail_cons] at h0 h1
      simp [h0, h1]

theorem Mini.Fits.setImportPath {base limit prevEnd : Int} {before : List Token}
    {m : Mini Bytes} (h : m.Fits base limit prevEnd before) (k : Int) :
    ({ m with importPath := k } : Mini Bytes).Fits base limit prevEnd before :=
  ⟨⟨h.buffered.w, h.buffered.sw, h.buffered.err, h.buffered.n⟩, h.ch, h.lit, h.pend, h.adj,
    h.semi, h.lim⟩

/-- A token written without a byte of the compactor before it. -/
theorem Mini.emit_fits {base limit prevEnd : Int} {before : List Token} {m : Mini Bytes}
    (h : m.Fits base limit prevEnd before) (pos : Int) (tok : Token) (lit : Bytes)
    (hpos : prevEnd ≤ pos)
    (hlim : pos + (if tok.IsOperator then tok.String else lit).length ≤ limit) :
    ∃ m1, m.finish tok lit = (m1, true) ∧
      m1.Fits base limit (pos + (if tok.IsOperator then tok.String else lit).length)
        (tok :: before) := by
  have hfl := m.flushed_length_le h.lit
  have := h.pend
  exact Mini.finish_fits base limit pos before m tok lit h.buffered h.lit (by omega) hlim

/-- A token written after the pending separator was dropped. -/
theorem Mini.emit_clear_fits {base limit prevEnd : Int} {before : List Token}
    {m : Mini Bytes}
    (h : m.Fits base limit prevEnd before) (pos : Int) (tok : Token) (lit : Bytes)
    (hpos : prevEnd ≤ pos)
    (hlim : pos + (if tok.IsOperator then tok.String else lit).length ≤ limit) :
    ∃ m1, ({ m with ch := 0 } : Mini Bytes).finish tok lit = (m1, true) ∧
      m1.Fits base limit (pos + (if tok.IsOperator then tok.String else lit).length)
        (tok :: before) := by
  have hfl := Mini.flushed_length_le ({ m with ch := 0 } : Mini Bytes) h.lit
  have := h.pend
  refine Mini.finish_fits base limit pos before _ tok lit
    ⟨h.buffered.w, h.buffered.sw, h.buffered.err, h.buffered.n⟩ h.lit ?_ hlim
  simp only [if_true] at hfl
  simp only
  split at this <;> omega

/-- A token written after one byte of the compactor that replaces the pending separator. -/
theorem Mini.emit_extra_fits {base limit prevEnd : Int} {before : List Token}
    {m : Mini Bytes}
    (h : m.Fits base limit prevEnd before) (c : Nat) (pos : Int) (tok : Token) (lit : Bytes)
    (hpos : base + m.out.length + 1 + m.lit.length ≤ pos)
    (hlim : pos + (if tok.IsOperator then tok.String else lit).length ≤ limit) :
    ∃ m1, ({ (m.write c).1 with ch := 0 } : Mini Bytes).finish tok lit = (m1, true) ∧
      m1.Fits base limit (pos + (if tok.IsOperator then tok.String else lit).length)
        (tok :: before) := by
  rw [Mini.write_buffered m c h.buffered]
  have hfl := Mini.flushed_length_le
    ({ ({ m with out := m.out ++ [c], n := m.n + 1 } : Mini Bytes) with ch := 0 }) h.lit
  refine Mini.finish_fits base limit pos before _ tok lit
    ⟨h.buffered.w, h.buffered.sw, h.buffered.err, by simp [h.buffered.n]⟩ h.lit ?_ hlim
  simp only [if_true, List.length_append, List.length_singleton] at hfl ⊢
  push_cast
  omega
/-- A separator handed to `delay` keeps the invariant. -/
theorem Mini.delay_fits {base limit prevEnd : Int} {before : List Token} {m : Mini Bytes}
    (h : m.Fits base limit prevEnd before) (c : Nat) (pos : Int) (tok : Token)
    (hc : (c = 44 ∧ tok = Token.COMMA) ∨ (c = 59 ∧ tok = Token.SEMICOLON))
    (hpos : prevEnd ≤ pos)
    (hlim : c = 59 ∨ pos + 1 ≤ limit) :
    ∃ m1, m.delay c = some (m1, true) ∧ m1.Fits base limit (pos + 1) (tok :: before) := by
  obtain ⟨hb, hch, hl, hpend, hadj, hsemi, hlimm⟩ := h
  have hc2 : c = 44 ∨ c = 59 := by
    rcases hc with hc | hc
    · exact Or.inl hc.1
    · exact Or.inr hc.1
  have hlen0 : (0 : Int) ≤ m.lit.length := by omega
  unfold Mini.delay
  rcases hch with h0 | h44 | h59
  · rw [if_pos h0]
    simp only [h0, if_true] at hpend
    refine ⟨_, rfl, ⟨hb.w, hb.sw, hb.err, hb.n⟩, ?_, hl, ?_, ?_, ?_, hlimm⟩
    · rcases hc2 with hc | hc <;> simp [hc]
    · have : c ≠ 0 := by omega
      simp only [this, if_false]
      omega
    · right; left
      dsimp only
      omega
    · intro hc59 hlit
      dsimp only at hc59 hlit ⊢
      have htok : tok = Token.SEMICOLON := by
        rcases hc with hc | hc
        · omega
        · exact hc.2
      rcases hadj with ha | ha | ha
      · left
        subst htok
        exact ⟨rfl, ha.symm⟩
      · right
        rw [hlit] at ha
        simp only [List.length_nil] at ha
        omega
      · exact absurd hlit ha.1
  · rw [if_neg (by omega), if_neg (by omega), if_pos h44]
    simp only [h44] at hpend
    simp at hpend
    refine ⟨_, rfl, hb, Or.inr (Or.inl h44), hl, ?_, ?_, ?_, hlimm⟩
    · simp only [h44]
      simp
      omega
    · right; left
      omega
    · intro hc59
      omega
  · rw [if_neg (by omega), if_pos h59]
    simp only [h59] at hpend
    simp at hpend
    by_cases hf : m.tok = Token.FOR
    · rw [if_pos hf]
      by_cases hc59 : c = 59
      · rw [if_pos hc59]
        have htok : tok = Token.SEMICOLON := by
          rcases hc with hc | hc
          · omega
          · exact hc.2
        refine ⟨_, rfl, ⟨hb.w, hb.sw, hb.err, hb.n⟩, Or.inl rfl, Or.inr ⟨rfl, hf⟩, ?_, ?_, ?_,
          hlimm⟩
        · simp [bytes]
          omega
        · dsimp only
          by_cases hl0 : m.lit = []
          · rcases hsemi h59 hl0 with ⟨hs1, hs2⟩ | hs
            · right; right
              subst htok
              exact ⟨by simp [bytes], take_three_for before hs1 (hs2.trans hf)⟩
            · right; left
              simp [bytes]
              omega
          · have hl2 : m.lit = bytes ";;" := by
              rcases hl with hl | hl
              · exact absurd hl hl0
              · exact hl.1
            right; left
            rw [hl2] at hpend
            simp [bytes] at hpend ⊢
            omega
        · intro h0
          simp at h0
      · rw [if_neg hc59]
        refine ⟨_, rfl, hb, Or.inr (Or.inr h59), hl, ?_, ?_, ?_, hlimm⟩
        · simp [h59]
          omega
        · right; left
          omega
        · intro _ hl0
          right
          rw [hl0] at hpend
          simp only [List.length_nil] at hpend
          omega
    · rw [if_neg hf]
      by_cases hc59 : c = 59
      · rw [if_pos (Or.inr hc59)]
        refine ⟨_, rfl, hb, Or.inr (Or.inr h59), hl, ?_, ?_, ?_, hlimm⟩
        · simp [h59]
          omega
        · right; left
          omega
        · intro _ hl0
          right
          rw [hl0] at hpend
          simp only [List.length_nil] at hpend
          omega
      · have hc44 : c = 44 := by omega
        rw [if_neg (by omega)]
        have hb0 : ({ m with ch := 0 } : Mini Bytes).Buffered := ⟨hb.w, hb.sw, hb.err, hb.n⟩
        rw [Mini.write_buffered _ c hb0]
        have hl2 : pos + 1 ≤ limit := by omega
        refine ⟨_, rfl, ⟨hb.w, hb.sw, hb.err, by simp [hb.n]⟩, Or.inl rfl, hl, ?_, ?_, ?_, ?_⟩
        · simp
          omega
        · right; left
          simp
          omega
        · intro h0
          simp at h0
        · simp
          omega

theorem Token.lit_nil_of_not_for {m : Mini Bytes}
    (hl : m.lit = [] ∨ (m.lit = bytes ";;" ∧ m.tok = Token.FOR)) (h : m.tok ≠ Token.FOR) :
    m.lit = [] := by
  rcases hl with hl | ⟨_, ht⟩
  · exact hl
  · exact absurd ht h

/-- One token keeps the invariant, or ends the output within the bound. -/
theorem Mini.WriteToken_fits {base limit prevEnd : Int} {before : List Token}
    {m : Mini Bytes}
    (h : m.Fits base limit prevEnd before) (s : Scanned)
    (hgap : prevEnd + (if needsGap before s.tok then 1 else 0) ≤ s.pos)
    (hlim : s.tok = Token.SEMICOLON ∨ s.pos + s.text.length ≤ limit)
    (hplain : s.plain = true) :
    ∃ m1 b, m.WriteToken s.tok s.lit = some (m1, b) ∧
      (b = true → m1.Fits base limit (s.pos + s.text.length) (s.tok :: before)) ∧
      (b = false → m1.n = m1.out.length ∧ base + m1.out.length ≤ limit) := by
  obtain ⟨pos, tok, lit, errs⟩ := s
  simp only [Scanned.text] at hlim ⊢
  simp only at hgap hplain
  have hpos : prevEnd ≤ pos := by split at hgap <;> omega
  have hb := h.buffered
  have hpend := h.pend
  have hadj := h.adj
  have hlen0 : (0 : Int) ≤ m.lit.length := by omega
  have hpend0 : base + m.out.length + m.lit.length ≤ prevEnd := by split at hpend <;> omega
  unfold Mini.WriteToken
  by_cases heof : m.tok = Token.EOF
  · rw [if_pos (Or.inr heof)]
    exact ⟨m, false, rfl, by simp, fun _ => ⟨hb.n, h.lim⟩⟩
  rw [if_neg (by simp [hb.err, heof])]
  -- a written token: the common ending
  have fin : ∀ {m0 : Mini Bytes} {t : Token} {l : Bytes},
      (∃ m1, m0.finish t l = (m1, true) ∧
        m1.Fits base limit (pos + (if tok.IsOperator then tok.String else lit).length)
          (tok :: before)) →
      ∃ m1 b, some (m0.finish t l) = some (m1, b) ∧
        (b = true → m1.Fits base limit
          (pos + (if tok.IsOperator then tok.String else lit).length) (tok :: before)) ∧
        (b = false → m1.n = m1.out.length ∧ base + m1.out.length ≤ limit) := by
    rintro m0 t l ⟨m1, he, hf⟩
    exact ⟨m1, true, by rw [he], fun _ => hf, by simp⟩
  by_cases h1 : tok = Token.STRING
  · subst h1
    rw [if_pos rfl]
    have hlim2 : pos + (if Token.STRING.IsOperator then Token.STRING.String else lit).length
        ≤ limit := by
      rcases hlim with hh | hh
      · exact absurd hh (by decide)
      · exact hh
    cases lit with
    | nil => simp [Scanned.plain] at hplain
    | cons c rest =>
      have hc : c ≠ 96 := by
        simp [Scanned.plain] at hplain
        exact hplain
      simp only [hc, if_false]
      exact fin (Mini.emit_fits h pos _ _ hpos hlim2)
  rw [if_neg h1]
  by_cases h2 : tok = Token.COMMENT
  · subst h2
    rw [if_pos rfl]
    have hlim2 : pos + lit.length ≤ limit := by
      rcases hlim with hh | hh
      · exact absurd hh (by decide)
      · simpa [Token.IsOperator, Token.val] using hh
    have hp2 : lit ≠ [] ∧ (lit.getD 1 0 = 42 → 4 ≤ lit.length) := by
      simp only [Scanned.plain, if_neg (show Token.COMMENT ≠ Token.STRING by decide), if_true,
        Bool.and_eq_true, Bool.or_eq_true, decide_eq_true_eq] at hplain
      refine ⟨hplain.1, fun h42 => ?_⟩
      rcases hplain.2 with hh | hh
      · exact absurd h42 hh
      · exact hh
    have hlit1 : (1 : Int) ≤ lit.length := by
      have := List.length_pos.mpr hp2.1
      omega
    have htext : (if Token.COMMENT.IsOperator then Token.COMMENT.String else lit) = lit := by
      simp [Token.IsOperator, Token.val]
    rw [htext]
    have hsemi := h.semi
    by_cases hip : m.importPath = 3
    · rw [if_pos hip]
      obtain ⟨l, hfetch, hlen⟩ := fetchImportPaths_shorter lit hp2.1 hp2.2
      rw [hfetch]
      by_cases hl0 : l = []
      · refine ⟨_, true, rfl, fun _ => ?_, by simp⟩
        rw [if_neg (by simp [hl0])]
        have h0 := h.setImportPath 0
        refine ⟨h0.buffered, h0.ch, h0.lit, by have := h0.pend; omega, Or.inr (Or.inl ?_), ?_,
          h0.lim⟩
        · dsimp only
          omega
        · intro h59 hlit0
          right
          dsimp only at h59 hlit0 ⊢
          rw [hlit0] at hpend
          simp only [h59, List.length_nil] at hpend
          simp at hpend
          omega
      · refine ⟨_, true, rfl, fun _ => ?_, by simp⟩
        rw [if_pos hl0]
        have h0 := h.setImportPath 0
        rw [Mini.writeString_buffered _ l h0.buffered]
        refine ⟨⟨hb.w, hb.sw, hb.err, by simp [hb.n]⟩, Or.inl rfl, h.lit, ?_,
          Or.inr (Or.inl ?_), ?_, ?_⟩
        · simp only [List.length_append, if_true]
          push_cast
          omega
        · simp only [List.length_append]
          push_cast
          omega
        · intro h0
          simp at h0
        · simp only [List.length_append]
          push_cast
          omega
    · rw [if_neg hip]
      refine ⟨m, true, rfl, fun _ => ?_, by simp⟩
      refine ⟨hb, h.ch, h.lit, by omega, Or.inr (Or.inl (by omega)), ?_, h.lim⟩
      intro h59 hlit0
      right
      rw [hlit0] at hpend
      simp only [h59, List.length_nil] at hpend
      simp at hpend
      omega
  rw [if_neg h2]
  by_cases h3 : tok = Token.COMMA
  · subst h3
    rw [if_pos rfl]
    have hlim2 : pos + 1 ≤ limit := by
      rcases hlim with hh | hh
      · exact absurd hh (by decide)
      · simpa [Token.IsOperator, Token.val, Token.String, bytes] using hh
    have htext : (if Token.COMMA.IsOperator then Token.COMMA.String else lit).length = 1 := by
      simp [Token.IsOperator, Token.val, Token.String, bytes]
    rw [htext]
    obtain ⟨m1, he, hf⟩ :=
      Mini.delay_fits h 44 pos Token.COMMA (Or.inl ⟨rfl, rfl⟩) hpos (Or.inr hlim2)
    exact ⟨m1, true, he, fun _ => hf, by simp⟩
  rw [if_neg h3]
  by_cases h4 : tok = Token.SEMICOLON
  · subst h4
    rw [if_pos rfl]
    have htext :
        (if Token.SEMICOLON.IsOperator then Token.SEMICOLON.String else lit).length = 1 := by
      simp [Token.IsOperator, Token.val, Token.String, bytes]
    rw [htext]
    have h0 : (if m.importPath = 3 then { m with importPath := 0 } else m).Fits base limit
        prevEnd before := by
      split
      · exact h.setImportPath 0
      · exact h
    obtain ⟨m1, he, hf⟩ :=
      Mini.delay_fits h0 59 pos Token.SEMICOLON (Or.inr ⟨rfl, rfl⟩) hpos (Or.inl rfl)
    exact ⟨m1, true, he, fun _ => hf, by simp⟩
  rw [if_neg h4]
  have hlim2 : pos + (if tok.IsOperator then tok.String else lit).length ≤ limit := by
    rcases hlim with hh | hh
    · exact absurd hh h4
    · exact hh
  by_cases h5 : tok = Token.CASE
  · rw [if_pos h5]
    by_cases hk : m.tok.IsKeyword = true
    · rw [if_pos hk]
      have hg : base + m.out.length + m.lit.length + 1 ≤ pos := by
        rcases hadj with ha | ha | ha
        · have : needsGap before tok = true := by
            have e1 : (Token.CASE.IsKeyword || Token.CASE.IsLiteral) = true := by decide
            unfold needsGap
            rw [← ha, hk, h5, e1]
            simp
          rw [this] at hgap
          simp only [if_true] at hgap
          omega
        · omega
        · have : needsGap before tok = true := by
            unfold needsGap
            rw [ha.2, h5]
            simp
          rw [this] at hgap
          simp only [if_true] at hgap
          omega
      exact fin (Mini.emit_extra_fits h 59 pos _ _ (by omega) hlim2)
    · rw [if_neg hk]
      exact fin (Mini.emit_fits h pos _ _ hpos hlim2)
  rw [if_neg h5]
  by_cases h6 : tok = Token.MUL
  · rw [if_pos h6]
    by_cases hq : m.tok = Token.QUO
    · rw [if_pos hq]
      have hl0 : m.lit = [] := Token.lit_nil_of_not_for h.lit (by rw [hq]; decide)
      have hg : base + m.out.length + 1 ≤ pos := by
        rcases hadj with ha | ha | ha
        · have : needsGap before tok = true := by
            unfold needsGap
            rw [← ha, hq, h6]
            simp
          rw [this] at hgap
          simp only [if_true] at hgap
          omega
        · omega
        · exact absurd hl0 ha.1
      exact fin (Mini.emit_extra_fits h 32 pos _ _ (by simp [hl0]; omega) hlim2)
    · rw [if_neg hq]
      exact fin (Mini.emit_fits h pos _ _ hpos hlim2)
  rw [if_neg h6]
  by_cases h7 : tok = Token.EOF
  · rw [if_pos h7]
    exact ⟨_, false, rfl, by simp, fun _ => ⟨hb.n, h.lim⟩⟩
  rw [if_neg h7]
  by_cases h8 : tok = Token.IMPORT
  · rw [if_pos h8]
    have h0 : (if m.importPath = 1 then { m with importPath := 2 } else m).Fits base limit
        prevEnd before := by
      split
      · exact h.setImportPath 2
      · exact h
    exact fin (Mini.emit_fits h0 pos _ _ hpos hlim2)
  rw [if_neg h8]
  by_cases h9 : tok = Token.ILLEGAL
  · rw [if_pos h9]
    exact ⟨_, false, rfl, by simp, fun _ => ⟨hb.n, h.lim⟩⟩
  rw [if_neg h9]
  by_cases h10 : isR tok = true
  · rw [if_pos h10]
    exact fin (Mini.emit_clear_fits h pos _ _ hpos hlim2)
  rw [if_neg h10]
  have h0 : (if m.importPath = 2 ∧ tok = Token.IDENT then { m with importPath := 3 }
      else m).Fits base limit prevEnd before := by
    split
    · exact h.setImportPath 3
    · exact h
  have ht0 : (if m.importPath = 2 ∧ tok = Token.IDENT then { m with importPath := 3 }
      else m).tok = m.tok := by
    split <;> rfl
  have hout0 : (if m.importPath = 2 ∧ tok = Token.IDENT then { m with importPath := 3 }
      else m).out = m.out := by
    split <;> rfl
  simp only
  generalize (if m.importPath = 2 ∧ tok = Token.IDENT then { m with importPath := 3 }
      else m) = m0 at h0 ht0 hout0 ⊢
  have hpend1 := h0.pend
  have hadj1 := h0.adj
  by_cases hkw : m0.tok.IsKeyword = true ∧ ¬ tok.IsOperator = true
  · rw [if_pos hkw]
    by_cases hl0 : m0.lit = []
    · rw [if_pos hl0]
      have hg : base + m0.out.length + 1 ≤ pos := by
        rcases hadj1 with ha | ha | ha
        · have : needsGap before tok = true :=
            needsGap_after_word before tok (Or.inl (ha ▸ hkw.1)) hkw.2 h1 h2 h7 h8 h9
          rw [this] at hgap
          simp only [if_true] at hgap
          split at hpend1 <;> omega
        · omega
        · exact absurd hl0 ha.1
      exact fin (Mini.emit_extra_fits h0 32 pos _ _ (by simp [hl0]; omega) hlim2)
    · rw [if_neg hl0]
      exact fin (Mini.emit_fits h0 pos _ _ hpos hlim2)
  rw [if_neg hkw]
  by_cases hlt : m0.tok.IsLiteral = true
  · rw [if_pos hlt]
    by_cases hL : isL tok = true
    · rw [if_pos hL]
      exact fin (Mini.emit_fits h0 pos _ _ hpos hlim2)
    rw [if_neg hL]
    by_cases hc59 : m0.ch = 59
    · rw [if_pos hc59]
      exact fin (Mini.emit_fits h0 pos _ _ hpos hlim2)
    rw [if_neg hc59]
    by_cases hop : ¬ tok.IsOperator = true
    · rw [if_pos hop]
      by_cases hc0 : m0.ch = 0
      · rw [if_pos hc0]
        have hl0 : m0.lit = [] :=
          Token.lit_nil_of_not_for h0.lit (by intro hf; rw [hf] at hlt; exact absurd hlt (by decide))
        have hg : base + m0.out.length + 1 ≤ pos := by
          rcases hadj1 with ha | ha | ha
          · have : needsGap before tok = true :=
              needsGap_after_word before tok (Or.inr ⟨ha ▸ hlt, h5⟩) hop h1 h2 h7 h8 h9
            rw [this] at hgap
            simp only [if_true] at hgap
            split at hpend1 <;> omega
          · omega
          · exact absurd hl0 ha.1
        have hw := Mini.write_buffered m0 32 h0.buffered
        have hfin := Mini.emit_extra_fits h0 32 pos tok lit (by simp [hl0]; omega) hlim2
        rw [hw] at hfin ⊢
        have hsame : ({ ({ m0 with out := m0.out ++ [32], n := m0.n + 1 } : Mini Bytes) with
            ch := 0 } : Mini Bytes) = { m0 with out := m0.out ++ [32], n := m0.n + 1 } := by
          cases m0
          simp only at hc0
          simp [hc0]
        rw [hsame] at hfin
        exact fin hfin
      · rw [if_neg hc0]
        exact fin (Mini.emit_fits h0 pos _ _ hpos hlim2)
    · rw [if_neg hop]
      exact fin (Mini.emit_fits h0 pos _ _ hpos hlim2)
  · rw [if_neg hlt]
    exact fin (Mini.emit_fits h0 pos _ _ hpos hlim2)
theorem Mini.errorHandle_foldl (errs : List (Nat × Bytes)) (m : Mini Bytes) :
    (errs.foldl (fun a e => a.errorHandle e.1 e.2) m).out = m.out ∧
    (errs.foldl (fun a e => a.errorHandle e.1 e.2) m).n = m.n ∧
    (errs ≠ [] → (errs.foldl (fun a e => a.errorHandle e.1 e.2) m).err ≠ none) := by
  induction errs generalizing m with
  | nil => simp
  | cons e es ih =>
    obtain ⟨h1, h2, h3⟩ := ih (m.errorHandle e.1 e.2)
    refine ⟨by simpa [Mini.errorHandle] using h1, by simpa [Mini.errorHandle] using h2, fun _ => ?_⟩
    simp only [List.foldl_cons]
    by_cases hes : es = []
    · subst hes
      simp [Mini.errorHandle]
    · exact h3 hes

/-- The loop of `Write` ends, with the count equal to the number of bytes in the buffer
and within the bound. -/
theorem Mini.writeLoop_fits {base limit : Int} (scan : List Scanned) :
    ∀ (prevEnd : Int) (before : List Token) (m : Mini Bytes) (ec : Nat),
      m.Fits base limit prevEnd before → fitsSource limit prevEnd before scan = true →
      ∃ m1 ec1, m.writeLoop ec scan = some (m1, ec1) ∧ m1.n = m1.out.length ∧
        base + m1.out.length ≤ limit := by
  induction scan with
  | nil =>
    intro prevEnd pre m ec h _
    unfold Mini.writeLoop
    by_cases hec : ec ≠ 0
    · rw [if_pos hec]
      exact ⟨m, ec, rfl, h.buffered.n, h.lim⟩
    · rw [if_neg hec]
      by_cases heof : m.tok = Token.EOF
      · exact ⟨m, ec, by simp [Mini.WriteToken, heof], h.buffered.n, h.lim⟩
      · exact ⟨{ m with tok := Token.EOF }, ec, by simp [Mini.WriteToken, heof, h.buffered.err],
          h.buffered.n, h.lim⟩
  | cons s rest ih =>
    intro prevEnd pre m ec h hfit
    unfold Mini.writeLoop
    by_cases hec : ec ≠ 0
    · rw [if_pos hec]
      exact ⟨m, ec, rfl, h.buffered.n, h.lim⟩
    · rw [if_neg hec]
      obtain ⟨ho, hn, he⟩ := Mini.errorHandle_foldl s.errs m
      by_cases herrs : s.errs = []
      · simp only [herrs, List.foldl_nil, List.length_nil, Nat.add_zero]
        by_cases hend : s.tok = Token.EOF
        · by_cases heof : m.tok = Token.EOF
          · exact ⟨m, ec, by simp [Mini.WriteToken, heof], h.buffered.n, h.lim⟩
          · exact ⟨{ m with tok := Token.EOF }, ec,
              by simp [Mini.WriteToken, heof, hend, h.buffered.err], h.buffered.n, h.lim⟩
        · simp only [fitsSource, hend, decide_False, Bool.false_or, Bool.and_eq_true,
            Bool.or_eq_true, decide_eq_true_eq] at hfit
          obtain ⟨⟨⟨hgap, hlim⟩, hplain⟩, hrest⟩ := hfit
          obtain ⟨m1, b, hw, ht, hf⟩ := Mini.WriteToken_fits h s hgap hlim hplain
          rw [hw]
          cases b with
          | true => exact ih _ _ m1 ec (ht rfl) hrest
          | false => exact ⟨m1, ec, rfl, hf rfl⟩
      · have hne := he herrs
        have hw : (List.foldl (fun a e => a.errorHandle e.1 e.2) m s.errs).WriteToken s.tok s.lit
            = some (List.foldl (fun a e => a.errorHandle e.1 e.2) m s.errs, false) := by
          unfold Mini.WriteToken
          rw [if_pos (Or.inl hne)]
        refine ⟨List.foldl (fun a e => a.errorHandle e.1 e.2) m s.errs, ec + s.errs.length,
          ?_, ?_, ?_⟩
        · simp only [hw]
        · rw [ho, hn]
          exact h.buffered.n
        · rw [ho]
          exact h.lim

/-- A fresh compactor over an empty buffer satisfies the invariant. -/
theorem New_fits (base : Int) (size : Nat) (omitPath : Bool) :
    (New bufferWriter [] omitPath).Fits base (base + size) base [] :=
  ⟨⟨rfl, rfl, rfl, rfl⟩, Or.inl rfl, Or.inl rfl, by simp [New], Or.inl rfl,
    fun h => by simp [New] at h, by simp [New]⟩


/-! ### Frames of the compactor, its phase, and the first token of the verifier -/

variable {σ : Type}

/-- What `write` leaves as it is, and what its result says. -/
theorem Mini.write_frame (m : Mini σ) (c : Nat) :
    (m.write c).1.w = m.w ∧ (m.write c).1.sw = m.sw ∧
    (m.write c).1.importPath = m.importPath ∧ (m.write c).1.tok = m.tok ∧
    (m.write c).1.lit = m.lit ∧ (m.write c).1.ch = m.ch ∧
    ((m.write c).2 = true ↔ (m.write c).1.err = none) := by
  unfold Mini.write
  split <;> simp_all

/-- What `writeString` leaves as it is, and what its result says. -/
theorem Mini.writeString_frame (m : Mini σ) (s : Bytes) :
    (m.writeString s).1.w = m.w ∧ (m.writeString s).1.sw = m.sw ∧
    (m.writeString s).1.importPath = m.importPath ∧ (m.writeString s).1.tok = m.tok ∧
    (m.writeString s).1.lit = m.lit ∧
    ((m.writeString s).2 = true ↔ (m.writeString s).1.err = none) := by
  unfold Mini.writeString
  split <;> simp_all

/-- With an error recorded, `write` and `writeString` do nothing. -/
theorem Mini.write_of_err (m : Mini σ) (c : Nat) (s : Bytes) (h : m.err ≠ none) :
    m.write c = (m, false) ∧ m.writeString s = (m, false) := by
  unfold Mini.write Mini.writeString
  simp [h]

/-- What `finish` leaves as it is, and what its result says. -/
theorem Mini.finish_frame (m : Mini σ) (tok : Token) (lit : Bytes) :
    (m.finish tok lit).1.w = m.w ∧ (m.finish tok lit).1.sw = m.sw ∧
    (m.finish tok lit).1.importPath = m.importPath ∧ (m.finish tok lit).1.tok = tok ∧
    ((m.finish tok lit).2 = true ↔ (m.finish tok lit).1.err = none) := by
  unfold Mini.finish
  have hw := fun (x : Mini σ) (c : Nat) => Mini.write_frame x c
  have hs := fun (x : Mini σ) (s : Bytes) => Mini.writeString_frame x s
  refine ⟨?_, ?_, ?_, ?_, ?_⟩
  · simp only [(hs _ _).1]
    split
    · split
      · simp [(hs _ _).1]
      · rfl
    · split
      · simp [(hw _ _).1]
      · rfl
  · simp only [(hs _ _).2.1]
    split
    · split
      · simp [(hs _ _).2.1]
      · rfl
    · split
      · simp [(hw _ _).2.1]
      · rfl
  · simp only [(hs _ _).2.2.1]
    split
    · split
      · simp [(hs _ _).2.2.1]
      · rfl
    · split
      · simp [(hw _ _).2.2.1]
      · rfl
  · simp only [(hs _ _).2.2.2.1]
  · exact (hs _ _).2.2.2.2.2

/-- What `delay` leaves as it is, and what its result says. -/
theorem Mini.delay_frame (m m1 : Mini σ) (c : Nat) (b : Bool)
    (h : m.delay c = some (m1, b)) :
    m1.w = m.w ∧ m1.sw = m.sw ∧ m1.importPath = m.importPath ∧ m1.tok = m.tok ∧
    (m.err = none → b = true → m1.err = none) := by
  unfold Mini.delay at h
  have hw := Mini.write_frame ({ m with ch := 0 } : Mini σ) c
  split at h
  · simp only [Option.some.injEq, Prod.mk.injEq] at h
    obtain ⟨rfl, rfl⟩ := h
    simp
  · split at h
    · split at h
      · simp only [Option.some.injEq, Prod.mk.injEq] at h
        obtain ⟨rfl, rfl⟩ := h
        split <;> simp
      · split at h
        · simp only [Option.some.injEq, Prod.mk.injEq] at h
          obtain ⟨rfl, rfl⟩ := h
          simp
        · simp only [Option.some.injEq] at h
          rw [h] at hw
          simp only at hw
          exact ⟨hw.1, hw.2.1, hw.2.2.1, hw.2.2.2.1, fun _ hb => hw.2.2.2.2.2.2.mp hb⟩
    · split at h
      · simp only [Option.some.injEq, Prod.mk.injEq] at h
        obtain ⟨rfl, rfl⟩ := h
        simp
      · exact absurd h (by simp)

/-- A token written with `finish` from a compactor `m0` that has the target of `m`. -/
theorem Mini.finish_result (m m0 m1 : Mini σ) (tok : Token) (l : Bytes) (b : Bool) (p : Int)
    (h : some (m0.finish tok l) = some (m1, b))
    (hw : m0.w = m.w) (hsw : m0.sw = m.sw) (hp : m0.importPath = p)
    (htok : tok ≠ Token.EOF) :
    m1.w = m.w ∧ m1.sw = m.sw ∧ m1.importPath = p ∧
      (b = true → m1.err = none ∧ m1.tok ≠ Token.EOF) := by
  have hf := Mini.finish_frame m0 tok l
  simp only [Option.some.injEq] at h
  rw [h] at hf
  simp only at hf
  refine ⟨hf.1.trans hw, hf.2.1.trans hsw, hf.2.2.1.trans hp, fun hb => ⟨hf.2.2.2.2.mp hb, ?_⟩⟩
  rw [hf.2.2.2.1]
  exact htok

/-- What one call of `WriteToken` does to the target, the phase of the import path, the
error and the last token. -/
theorem Mini.WriteToken_frame (m m1 : Mini σ) (tok : Token) (lit : Bytes) (b : Bool)
    (h : m.WriteToken tok lit = some (m1, b)) :
    m1.w = m.w ∧ m1.sw = m.sw ∧
    ((m.err ≠ none ∨ m.tok = Token.EOF) → m1 = m ∧ b = false) ∧
    (m.err = none → m.tok ≠ Token.EOF → m1.importPath = phaseStep m.importPath tok) ∧
    (m.importPath ≠ 3 → b = true → m1.err = none ∧ m1.tok ≠ Token.EOF) := by
  unfold Mini.WriteToken at h
  by_cases hg : m.err ≠ none ∨ m.tok = Token.EOF
  · rw [if_pos hg] at h
    simp only [Option.some.injEq, Prod.mk.injEq] at h
    obtain ⟨rfl, rfl⟩ := h
    refine ⟨rfl, rfl, fun _ => ⟨rfl, rfl⟩, fun he ht => ?_, fun _ hb => by simp at hb⟩
    rcases hg with hg | hg
    · exact absurd he hg
    · exact absurd hg ht
  rw [if_neg hg] at h
  have herr : m.err = none := by
    by_contra hc
    exact hg (Or.inl hc)
  have htk : m.tok ≠ Token.EOF := fun hc => hg (Or.inr hc)
  -- the shape of the statement once the entry test is passed
  suffices hs : m1.w = m.w ∧ m1.sw = m.sw ∧ m1.importPath = phaseStep m.importPath tok ∧
      (m.importPath ≠ 3 → b = true → m1.err = none ∧ m1.tok ≠ Token.EOF) from
    ⟨hs.1, hs.2.1, fun hc => absurd hc hg, fun _ _ => hs.2.2.1, hs.2.2.2⟩
  have fin : ∀ (m0 : Mini σ) (l : Bytes), some (m0.finish tok l) = some (m1, b) →
      m0.w = m.w → m0.sw = m.sw → m0.importPath = phaseStep m.importPath tok →
      tok ≠ Token.EOF →
      m1.w = m.w ∧ m1.sw = m.sw ∧ m1.importPath = phaseStep m.importPath tok ∧
        (m.importPath ≠ 3 → b = true → m1.err = none ∧ m1.tok ≠ Token.EOF) := by
    intro m0 l h0 hw hsw hp ht
    have := Mini.finish_result m m0 m1 tok l b _ h0 hw hsw hp ht
    exact ⟨this.1, this.2.1, this.2.2.1, fun _ hb => this.2.2.2 hb⟩
  by_cases h1 : tok = Token.STRING
  · rw [if_pos h1] at h
    cases lit with
    | nil => simp at h
    | cons c rest =>
      simp only at h
      exact fin m _ h rfl rfl (by simp [phaseStep, h1]) (by simp [h1])
  rw [if_neg h1] at h
  by_cases h2 : tok = Token.COMMENT
  · rw [if_pos h2] at h
    by_cases hip : m.importPath = 3
    · rw [if_pos hip] at h
      cases hf : fetchImportPaths lit with
      | none => simp [hf] at h
      | some l =>
        simp only [hf, Option.some.injEq, Prod.mk.injEq] at h
        obtain ⟨rfl, rfl⟩ := h
        refine ⟨?_, ?_, ?_, fun hc => absurd hip hc⟩
        · split
          · exact (Mini.writeString_frame _ _).1
          · rfl
        · split
          · exact (Mini.writeString_frame _ _).2.1
          · rfl
        · have : phaseStep m.importPath tok = 0 := by simp [phaseStep, hip, h2]
          rw [this]
          split
          · exact (Mini.writeString_frame _ _).2.2.1
          · rfl
    · rw [if_neg hip] at h
      simp only [Option.some.injEq, Prod.mk.injEq] at h
      obtain ⟨rfl, rfl⟩ := h
      refine ⟨rfl, rfl, ?_, fun _ _ => ⟨herr, htk⟩⟩
      simp [phaseStep, h2, hip]
  rw [if_neg h2] at h
  by_cases h3 : tok = Token.COMMA
  · rw [if_pos h3] at h
    have hd := Mini.delay_frame m m1 44 b h
    refine ⟨hd.1, hd.2.1, ?_, fun _ hb => ⟨hd.2.2.2.2 herr hb, ?_⟩⟩
    · rw [hd.2.2.1]
      simp [phaseStep, h3]
    · rw [hd.2.2.2.1]
      exact htk
  rw [if_neg h3] at h
  by_cases h4 : tok = Token.SEMICOLON
  · rw [if_pos h4] at h
    have hd := Mini.delay_frame _ m1 59 b h
    by_cases hip : m.importPath = 3
    · simp only [hip, if_true] at hd
      refine ⟨hd.1, hd.2.1, ?_, fun hc => absurd hip hc⟩
      rw [hd.2.2.1]
      simp [phaseStep, h4, hip]
    · simp only [hip, if_false] at hd
      refine ⟨hd.1, hd.2.1, ?_, fun _ hb => ⟨hd.2.2.2.2 herr hb, ?_⟩⟩
      · rw [hd.2.2.1]
        simp [phaseStep, h4, hip]
      · rw [hd.2.2.2.1]
        exact htk
  rw [if_neg h4] at h
  by_cases h5 : tok = Token.CASE
  · rw [if_pos h5] at h
    have hp : phaseStep m.importPath tok = m.importPath := by simp [phaseStep, h5]
    have hw := Mini.write_frame m 59
    split at h
    · exact fin _ _ h hw.1 hw.2.1 (hw.2.2.1.trans hp.symm) (by simp [h5])
    · exact fin _ _ h rfl rfl hp.symm (by simp [h5])
  rw [if_neg h5] at h
  by_cases h6 : tok = Token.MUL
  · rw [if_pos h6] at h
    have hp : phaseStep m.importPath tok = m.importPath := by simp [phaseStep, h6]
    have hw := Mini.write_frame m 32
    split at h
    · exact fin _ _ h hw.1 hw.2.1 (hw.2.2.1.trans hp.symm) (by simp [h6])
    · exact fin _ _ h rfl rfl hp.symm (by simp [h6])
  rw [if_neg h6] at h
  by_cases h7 : tok = Token.EOF
  · rw [if_pos h7] at h
    simp only [Option.some.injEq, Prod.mk.injEq] at h
    obtain ⟨rfl, rfl⟩ := h
    exact ⟨rfl, rfl, by simp [phaseStep, h7], fun _ hb => by simp at hb⟩
  rw [if_neg h7] at h
  by_cases h8 : tok = Token.IMPORT
  · rw [if_pos h8] at h
    refine fin _ _ h ?_ ?_ ?_ h7
    · split <;> rfl
    · split <;> rfl
    · by_cases hp1 : m.importPath = 1
      · simp [phaseStep, hp1, h8]
      · simp [phaseStep, hp1, h8]
  rw [if_neg h8] at h
  by_cases h9 : tok = Token.ILLEGAL
  · rw [if_pos h9] at h
    simp only [Option.some.injEq, Prod.mk.injEq] at h
    obtain ⟨rfl, rfl⟩ := h
    exact ⟨rfl, rfl, by simp [phaseStep, h9], fun _ hb => by simp at hb⟩
  rw [if_neg h9] at h
  by_cases h10 : isR tok = true
  · rw [if_pos h10] at h
    refine fin _ _ h rfl rfl ?_ h7
    have : tok ≠ Token.IDENT := by
      intro hc
      rw [hc] at h10
      exact absurd h10 (by decide)
    simp [phaseStep, h8, h2, h4, this]
  rw [if_neg h10] at h
  simp only at h
  have hp0 : (if m.importPath = 2 ∧ tok = Token.IDENT then ({ m with importPath := 3 } : Mini σ)
      else m).importPath = phaseStep m.importPath tok := by
    by_cases hc : m.importPath = 2 ∧ tok = Token.IDENT
    · simp [phaseStep, hc]
    · rw [if_neg hc]
      simp only [phaseStep, h8, h2, h4, and_false, false_or, if_false, hc]
  have hw0 : (if m.importPath = 2 ∧ tok = Token.IDENT then ({ m with importPath := 3 } : Mini σ)
      else m).w = m.w := by
    split <;> rfl
  have hsw0 : (if m.importPath = 2 ∧ tok = Token.IDENT then ({ m with importPath := 3 } : Mini σ)
      else m).sw = m.sw := by
    split <;> rfl
  generalize (if m.importPath = 2 ∧ tok = Token.IDENT then ({ m with importPath := 3 } : Mini σ)
      else m) = m0 at h hp0 hw0 hsw0
  have hw := Mini.write_frame m0 32
  split at h
  · split at h
    · exact fin _ _ h (hw.1.trans hw0) (hw.2.1.trans hsw0) (hw.2.2.1.trans hp0) h7
    · exact fin _ _ h hw0 hsw0 hp0 h7
  · split at h
    · split at h
      · exact fin _ _ h hw0 hsw0 hp0 h7
      · split at h
        · exact fin _ _ h hw0 hsw0 hp0 h7
        · split at h
          · split at h
            · exact fin _ _ h (hw.1.trans hw0) (hw.2.1.trans hsw0) (hw.2.2.1.trans hp0) h7
            · exact fin _ _ h hw0 hsw0 hp0 h7
          · exact fin _ _ h hw0 hsw0 hp0 h7
    · exact fin _ _ h hw0 hsw0 hp0 h7

/-- With a scanner error counted the loop of `Write` does nothing. -/
theorem Mini.writeLoop_of_errorCount (m : Mini σ) (ec : Nat) (scan : List Scanned)
    (h : ec ≠ 0) : m.writeLoop ec scan = some (m, ec) := by
  cases scan <;> simp [Mini.writeLoop, h]

/-- Scanner errors record an error. -/
theorem Mini.errorHandle_foldl_err (errs : List (Nat × Bytes)) (m : Mini σ)
    (h : errs ≠ []) : (errs.foldl (fun a e => a.errorHandle e.1 e.2) m).err ≠ none := by
  induction errs generalizing m with
  | nil => exact absurd rfl h
  | cons e es ih =>
    simp only [List.foldl_cons]
    by_cases hes : es = []
    · subst hes
      simp [Mini.errorHandle]
    · exact ih _ hes

/-- In phase 0 a comment token leaves the compactor as it is. -/
theorem Mini.WriteToken_comment_phase0 (m : Mini σ) (lit : Bytes) (hp : m.importPath ≠ 3)
    (he : m.err = none) (ht : m.tok ≠ Token.EOF) :
    m.WriteToken Token.COMMENT lit = some (m, true) := by
  unfold Mini.WriteToken
  simp [he, ht, hp]

/-- The loop of `Write` from phase 0 does not see the comment tokens. -/
theorem Mini.writeLoop_withoutComments (scan : List Scanned) :
    ∀ (m : Mini σ) (ec : Nat), m.importPath = 0 → m.err = none → m.tok ≠ Token.EOF →
      (∀ s ∈ scan, s.tok = Token.COMMENT → s.errs = []) →
      m.writeLoop ec scan = m.writeLoop ec (withoutComments scan) := by
  induction scan with
  | nil => intro m ec _ _ _ _; rfl
  | cons s rest ih =>
    intro m ec hp he ht hs
    have hrest : ∀ s ∈ rest, s.tok = Token.COMMENT → s.errs = [] :=
      fun x hx => hs x (List.mem_cons_of_mem _ hx)
    by_cases hec : ec ≠ 0
    · rw [Mini.writeLoop_of_errorCount _ _ _ hec, Mini.writeLoop_of_errorCount _ _ _ hec]
    by_cases hc : s.tok = Token.COMMENT
    · have hf : withoutComments (s :: rest) = withoutComments rest := by
        simp [withoutComments, List.filter_cons, hc]
      have herrs := hs s (List.mem_cons_self _ _) hc
      rw [hf, ← ih m ec hp he ht hrest]
      rw [Mini.writeLoop, if_neg hec]
      simp only [herrs, List.foldl_nil, List.length_nil, Nat.add_zero, hc]
      rw [Mini.WriteToken_comment_phase0 m s.lit (by omega) he ht]
    · have hf : withoutComments (s :: rest) = s :: withoutComments rest := by
        simp [withoutComments, List.filter_cons, hc]
      rw [hf, Mini.writeLoop, Mini.writeLoop, if_neg hec, if_neg hec]
      simp only
      cases hW : (List.foldl (fun a e => a.errorHandle e.1 e.2) m s.errs).WriteToken s.tok s.lit with
      | none => rfl
      | some r =>
        obtain ⟨m2, b⟩ := r
        cases b with
        | false => rfl
        | true =>
          simp only
          have hfr := Mini.WriteToken_frame _ m2 s.tok s.lit true hW
          by_cases herrs : s.errs = []
          · rw [herrs, List.foldl_nil] at hW
            have hfr := Mini.WriteToken_frame m m2 s.tok s.lit true hW
            have h2 := hfr.2.2.2.2 (by omega) rfl
            have h3 := hfr.2.2.2.1 he ht
            exact ih m2 _ (by rw [h3, hp]; simp [phaseStep]) h2.1 h2.2 hrest
          · have hne := Mini.errorHandle_foldl_err s.errs m herrs
            have := (hfr.2.2.1 (Or.inl hne)).2
            exact absurd this (by simp)

/-- The step of the phase is one of its moves. -/
theorem phaseMove_phaseStep (p : Int) (tok : Token) : phaseMove p tok (phaseStep p tok) := by
  unfold phaseMove phaseStep
  split
  · next h => exact Or.inr (Or.inl ⟨h.1, h.2, rfl⟩)
  · split
    · next h => exact Or.inr (Or.inr (Or.inl ⟨h.1, h.2, rfl⟩))
    · split
      · next h => exact Or.inr (Or.inr (Or.inr ⟨h.1, h.2, rfl⟩))
      · exact Or.inl rfl

/-- The state after the loop of `Write` is the state after the last call. -/
theorem Mini.writeLoop_eq_calls (scan : List Scanned) :
    ∀ (m m1 : Mini σ) (ec ec1 : Nat), m.writeLoop ec scan = some (m1, ec1) →
      m1 = (((m.calls ec scan).getLast?).map Call.after).getD m := by
  induction scan with
  | nil =>
    intro m m1 ec ec1 h
    unfold Mini.writeLoop at h
    unfold Mini.calls
    by_cases hec : ec ≠ 0
    · rw [if_pos hec] at h ⊢
      simp only [Option.some.injEq, Prod.mk.injEq] at h
      simp [h.1]
    · rw [if_neg hec] at h ⊢
      cases hW : m.WriteToken Token.EOF [] with
      | none => simp [hW] at h
      | some r =>
        simp only [hW, Option.map_some', Option.some.injEq, Prod.mk.injEq] at h
        simp [h.1]
  | cons s rest ih =>
    intro m m1 ec ec1 h
    unfold Mini.writeLoop at h
    unfold Mini.calls
    by_cases hec : ec ≠ 0
    · rw [if_pos hec] at h ⊢
      simp only [Option.some.injEq, Prod.mk.injEq] at h
      simp [h.1]
    · rw [if_neg hec] at h ⊢
      simp only at h ⊢
      cases hW : (List.foldl (fun a e => a.errorHandle e.1 e.2) m s.errs).WriteToken s.tok s.lit with
      | none => simp [hW] at h
      | some r =>
        obtain ⟨m2, b⟩ := r
        cases b with
        | false =>
          simp only [hW, Option.some.injEq, Prod.mk.injEq] at h
          simp [h.1]
        | true =>
          simp only [hW] at h
          have := ih m2 m1 _ ec1 h
          rw [this]
          have key : ∀ (c0 : Call σ) (cs : List (Call σ)), c0.after = m2 →
              (Option.map Call.after cs.getLast?).getD m2
                = (Option.map Call.after (c0 :: cs).getLast?).getD m := by
            intro c0 cs h0
            cases cs with
            | nil => simp [h0]
            | cons c cs =>
              rw [List.getLast?_cons_cons]
              cases hl : (c :: cs).getLast? with
              | none => simp at hl
              | some x => simp
          exact key _ _ rfl

/-- Scanner errors leave the target, the bytes written and the phase as they are. -/
theorem Mini.errorHandle_foldl_frame (errs : List (Nat × Bytes)) (m : Mini σ) :
    (errs.foldl (fun a e => a.errorHandle e.1 e.2) m).w = m.w ∧
    (errs.foldl (fun a e => a.errorHandle e.1 e.2) m).sw = m.sw ∧
    (errs.foldl (fun a e => a.errorHandle e.1 e.2) m).out = m.out ∧
    (errs.foldl (fun a e => a.errorHandle e.1 e.2) m).importPath = m.importPath := by
  induction errs generalizing m with
  | nil => simp
  | cons e es ih =>
    simp only [List.foldl_cons]
    have := ih (m.errorHandle e.1 e.2)
    simpa [Mini.errorHandle] using this

/-- Over a buffer a comment token leaves the bytes written as they are, or it comes in
phase 3 and appends what `fetchImportPaths` returns for its text. -/
theorem Mini.WriteToken_comment_buffer (m m1 : Mini Bytes) (lit : Bytes) (b : Bool)
    (hsw : m.sw = some bufferWriter.WriteString)
    (h : m.WriteToken Token.COMMENT lit = some (m1, b)) :
    m1.out = m.out ∨
      (m.importPath = 3 ∧ ∃ l, fetchImportPaths lit = some l ∧ m1.out = m.out ++ l) := by
  unfold Mini.WriteToken at h
  by_cases hg : m.err ≠ none ∨ m.tok = Token.EOF
  · rw [if_pos hg] at h
    simp only [Option.some.injEq, Prod.mk.injEq] at h
    exact Or.inl (by rw [← h.1])
  rw [if_neg hg, if_neg (by decide), if_pos rfl] at h
  have herr : m.err = none := by
    by_contra hc
    exact hg (Or.inl hc)
  by_cases hip : m.importPath = 3
  · rw [if_pos hip] at h
    cases hf : fetchImportPaths lit with
    | none => simp [hf] at h
    | some l =>
      simp only [hf, Option.some.injEq, Prod.mk.injEq] at h
      by_cases hl : l = []
      · subst hl
        simp only [ne_eq, not_true_eq_false, if_false] at h
        exact Or.inl (by rw [← h.1])
      · rw [if_pos hl] at h
        refine Or.inr ⟨hip, l, rfl, ?_⟩
        rw [← h.1]
        simp [Mini.writeString, herr, hsw, bufferWriter]
  · rw [if_neg hip] at h
    simp only [Option.some.injEq, Prod.mk.injEq] at h
    exact Or.inl (by rw [← h.1])

/-- One call from a compactor over a buffer with the phase in 0..3. -/
theorem Mini.call_phaseOk (m m2 : Mini Bytes) (tok : Token) (lit : Bytes) (b : Bool)
    (hw : m.w = bufferWriter.Write) (hsw : m.sw = some bufferWriter.WriteString)
    (hr : 0 ≤ m.importPath ∧ m.importPath ≤ 3)
    (h : m.WriteToken tok lit = some (m2, b)) :
    phaseMove m.importPath tok m2.importPath ∧
    (tok = Token.COMMENT → m2.out ≠ m.out →
      m.importPath = 3 ∧ ∃ l, fetchImportPaths lit = some l ∧ m2.out = m.out ++ l) ∧
    m2.w = bufferWriter.Write ∧ m2.sw = some bufferWriter.WriteString ∧
    (0 ≤ m2.importPath ∧ m2.importPath ≤ 3) := by
  have hf := Mini.WriteToken_frame m m2 tok lit b h
  have hmove : phaseMove m.importPath tok m2.importPath := by
    by_cases hg : m.err ≠ none ∨ m.tok = Token.EOF
    · rw [(hf.2.2.1 hg).1]
      exact Or.inl rfl
    · have herr : m.err = none := by
        by_contra hc
        exact hg (Or.inl hc)
      rw [hf.2.2.2.1 herr (fun hc => hg (Or.inr hc))]
      exact phaseMove_phaseStep _ _
  refine ⟨hmove, ?_, hf.1.trans hw, hf.2.1.trans hsw, ?_⟩
  · intro ht hne
    subst ht
    rcases Mini.WriteToken_comment_buffer m m2 lit b hsw h with h1 | h1
    · exact absurd h1 hne
    · exact h1
  · unfold phaseMove at hmove
    omega

/-- In a run over a buffer every call is as `Call.phaseOk` says, and at most one comment
changes the bytes written, none once the phase is 0. -/
theorem Mini.calls_phaseOk (scan : List Scanned) :
    ∀ (m : Mini Bytes) (ec : Nat), m.w = bufferWriter.Write →
      m.sw = some bufferWriter.WriteString → (0 ≤ m.importPath ∧ m.importPath ≤ 3) →
      (∀ c ∈ m.calls ec scan, c.phaseOk) ∧
      ((m.calls ec scan).filter Call.commentWritten).length
        ≤ (if m.importPath = 0 then 0 else 1) := by
  induction scan with
  | nil =>
    intro m ec hw hsw hr
    unfold Mini.calls
    by_cases hec : ec ≠ 0
    · simp [hec]
    · rw [if_neg hec]
      cases hW : m.WriteToken Token.EOF [] with
      | none => simp
      | some r =>
        obtain ⟨m2, b⟩ := r
        have hc := Mini.call_phaseOk m m2 Token.EOF [] b hw hsw hr hW
        simp only [List.mem_singleton, forall_eq]
        refine ⟨⟨hr, hc.1, fun ht => by simp at ht⟩, ?_⟩
        simp [List.filter, Call.commentWritten]
  | cons s rest ih =>
    intro m ec hw hsw hr
    unfold Mini.calls
    by_cases hec : ec ≠ 0
    · simp [hec]
    · rw [if_neg hec]
      simp only
      obtain ⟨hw1, hsw1, ho1, hp1⟩ := Mini.errorHandle_foldl_frame s.errs m
      generalize List.foldl (fun a e => a.errorHandle e.1 e.2) m s.errs = m1 at hw1 hsw1 ho1 hp1
      have hr1 : 0 ≤ m1.importPath ∧ m1.importPath ≤ 3 := by rw [hp1]; exact hr
      cases hW : m1.WriteToken s.tok s.lit with
      | none => simp
      | some r =>
        obtain ⟨m2, b⟩ := r
        have hc := Mini.call_phaseOk m1 m2 s.tok s.lit b (hw1.trans hw) (hsw1.trans hsw) hr1 hW
        have hok : (⟨m1, s, m2⟩ : Call Bytes).phaseOk :=
          ⟨hr1, hc.1, fun ht hne => (hc.2.1 ht hne).2⟩
        have hcount : ((([⟨m1, s, m2⟩] : List (Call Bytes)).filter Call.commentWritten).length
            + (if m2.importPath = 0 then 0 else 1) : Nat)
              ≤ (if m.importPath = 0 then 0 else 1) := by
          by_cases hcw : (⟨m1, s, m2⟩ : Call Bytes).commentWritten = true
          · have h3 : m1.importPath = 3 ∧ m2.importPath = 0 := by
              simp only [Call.commentWritten, Bool.and_eq_true, decide_eq_true_eq] at hcw
              have h3 := (hc.2.1 hcw.1 hcw.2).1
              have hmv := hc.1
              unfold phaseMove at hmv
              have hcm := hcw.1
              refine ⟨h3, ?_⟩
              rcases hmv with hq | hq | hq | hq
              · exfalso
                -- phase 3 on a comment that passes the entry test moves to 0
                have hf := Mini.WriteToken_frame m1 m2 s.tok s.lit b hW
                by_cases hg : m1.err ≠ none ∨ m1.tok = Token.EOF
                · have := (hf.2.2.1 hg).1
                  rw [this] at hcw
                  exact hcw.2 rfl
                · have herr : m1.err = none := by
                    by_contra hx
                    exact hg (Or.inl hx)
                  have := hf.2.2.2.1 herr (fun hx => hg (Or.inr hx))
                  rw [this, h3, hcm] at hq
                  simp [phaseStep] at hq
              · omega
              · omega
              · exact hq.2.2
            rw [hp1] at h3
            simp [List.filter, hcw, h3.1, h3.2]
          · have hmv := hc.1
            unfold phaseMove at hmv
            rw [hp1] at hmv
            simp only [List.filter, hcw, List.length_nil, Nat.zero_add]
            split <;> split <;> omega
        cases b with
        | false =>
          simp only [List.mem_singleton, forall_eq]
          refine ⟨hok, ?_⟩
          have : (if m2.importPath = 0 then 0 else 1 : Nat) ≥ 0 := Nat.zero_le _
          omega
        | true =>
          simp only
          obtain ⟨ih1, ih2⟩ := ih m2 (ec + s.errs.length) hc.2.2.1 hc.2.2.2.1 hc.2.2.2.2
          refine ⟨?_, ?_⟩
          · intro c hcmem
            rcases List.mem_cons.mp hcmem with hh | hh
            · rw [hh]
              exact hok
            · exact ih1 c hh
          · rw [List.filter_cons]
            simp only [List.filter, List.length_nil, List.length_cons] at hcount
            split
            · next hcw =>
              simp only [hcw, List.length_cons, List.length_nil] at hcount ⊢
              omega
            · next hcw =>
              simp only [hcw, List.length_nil] at hcount
              omega

/-- On a buffer whose first token stands at byte 0 (position 1) and is no keyword,
`Examine` returns a violation, whatever follows. -/
theorem Examine_first_token_not_keyword (size : Int) (s : Scanned) (rest : List Scanned)
    (hsize : 1 ≤ size) (hpos : s.pos = 1) (heof : s.tok ≠ Token.EOF)
    (hk : s.tok.IsKeyword = false) :
    ∃ e, Examine size (s :: rest) = some (some e) := by
  unfold Examine examineLoop
  simp only [heof, if_false, hpos, show ¬ (1 : Int) > size by omega]
  by_cases h1 : s.tok = Token.ILLEGAL ∨ s.lit = [10] ∨ (1 : Int) - ({} : ExamineState).endPos > 1
  · rw [if_pos h1]
    exact ⟨_, rfl⟩
  · rw [if_neg h1]
    have h4 : ¬ ((({} : ExamineState).i + 1 = 4) ∧ s.tok = Token.COMMENT) := by
      intro h
      exact absurd h.1 (by decide)
    rw [if_neg h4]
    simp only
    by_cases hc : s.tok = Token.COMMENT
    · rw [if_pos hc]
      exact ⟨_, rfl⟩
    · rw [if_neg hc]
      have hb : oneByteGapBreaks ({} : ExamineState).pre s.tok = true := by
        show oneByteGapBreaks Token.ILLEGAL s.tok = true
        unfold oneByteGapBreaks
        rw [if_pos]
        intro h
        rcases h with h | h | h | h
        · exact absurd h (by decide)
        · rw [hk] at h
          exact absurd h (by decide)
        · exact absurd h.1 (by decide)
        · exact absurd h.1 (by decide)
      rw [if_pos ⟨by decide, hb⟩]
      exact ⟨_, rfl⟩


/-! ### The claims -/

/-- Claim C1 (fails on the code): `package p\n\nvar x = a & ^b\n` is compacted to
`package p;var x=a&^b`, the very bytes written for `package p\n\nvar x = a &^ b\n`, and
`Diff` of the tree of the source and the tree of these bytes returns the two
binary-expression nodes (addresses 6 and 106), not `(nil, nil)`. -/
theorem C1_round_trip_and_xor :
    compact srcAndXor = some (bytes "package p;var x=a&^b") ∧
    compact srcAndNot = some (bytes "package p;var x=a&^b") ∧
    diffAddrs (some treeAndXor) (some treeAndNot) = some (some 6, some 106) := by
  refine ⟨by decide, by decide, by decide⟩

/-- Claim C2 (fails on the code): the formatted fragment `x = 1\n` is compacted to `x=1`,
and `Examine` on the scan of `x=1` reports a violation at the first token, as if one
byte preceded it; on the scan of `package p;func f(){return 1}` it returns nil. -/
theorem C2_examine_first_token :
    compact srcAssign = some (bytes "x=1") ∧
    Examine 3 rescanAssign = some (some (ExamineError.report true 1 [] (bytes "x"))) ∧
    Examine 28 rescanPackageFunc = some none := by
  refine ⟨by decide, by decide, by decide⟩

/-- Claim C3 (fails on the code): between `<` and `-`, `+` and `+`, `-` and `-`, `&` and
`^` the compactor writes nothing, so the bytes are those it writes for the single tokens
`<-`, `++`, `--`, `&^`; only between `/` and `*` does it write a blank. -/
theorem C3_operator_pairs_merge :
    compact (srcOperators .LSS .SUB) = some (bytes "x<-y") ∧
    compact (srcOperators .LSS .SUB) = compact (srcOperator .ARROW) ∧
    compact (srcOperators .ADD .ADD) = some (bytes "x++y") ∧
    compact (srcOperators .ADD .ADD) = compact (srcOperator .INC) ∧
    compact (srcOperators .SUB .SUB) = some (bytes "x--y") ∧
    compact (srcOperators .SUB .SUB) = compact (srcOperator .DEC) ∧
    compact (srcOperators .AND .XOR) = some (bytes "x&^y") ∧
    compact (srcOperators .AND .XOR) = compact (srcOperator .AND_NOT) ∧
    compact (srcOperators .QUO .MUL) = some (bytes "x/ *y") := by
  refine ⟨by decide, by decide, by decide, by decide, by decide, by decide, by decide,
    by decide, by decide⟩

/-- Claim C4 (fails on the code): for the tokens of `for i := 0; ; i++ {\n}\n` the
compactor writes the 14 bytes `for i:=0;i++{}`, with one terminator in the header, the
same bytes as for `for i := 0; i++ {\n}\n`; for `for ; ; i++ {\n}\n` it writes both. -/
theorem C4_for_post_loses_terminator :
    (New bufferWriter [] false).Write srcForPost
      = some (14, none, bytes "for i:=0;i++\x7b\x7d") ∧
    compact srcForPost = compact srcForOneTerminator ∧
    compact srcForPost ≠ some (bytes "for i:=0;;i++\x7b\x7d") ∧
    compact srcForPostOnly = some (bytes "for;;i++\x7b\x7d") := by
  refine ⟨by decide, by decide, by decide, by decide⟩

/-- Claim C5: on the token sequence of `package p\n\nfunc f() {\n\treturn 1\n}\n` a fresh
compactor (either mode) over an empty buffer writes exactly
`package p;func f(){return 1}` and returns the count 28 and no error. -/
theorem C5_package_func_output (omitPath : Bool) :
    (New bufferWriter [] omitPath).Write srcPackageFunc
      = some (28, none, bytes "package p;func f()\x7breturn 1\x7d") := by
  cases omitPath <;> decide

/-- Claim C6 (fails on the code): for the raw string token whose content is `abc` the
compactor emits `strconv.Quote` of the content with the opening backquote in front,
which differs from `strconv.Quote("abc")`, and `compare` on the two string literal
nodes, the raw one and the emitted one, returns false. -/
theorem C6_raw_string_keeps_backquote :
    ((New bufferWriter [] false).WriteToken .STRING rawAbc).map (fun r => r.1.out)
      = some (bytes "\"`abc\"") ∧
    strconvQuote (bytes "abc") = bytes "\"abc\"" ∧
    compare (some (.mk 1 (.BasicLit .STRING rawAbc) []))
      (some (.mk 2 (.BasicLit .STRING (bytes "\"`abc\"")) [])) = some false ∧
    compare (some (.mk 1 (.BasicLit .STRING rawAbc) []))
      (some (.mk 2 (.BasicLit .STRING (bytes "\"abc\"")) [])) = some true := by
  refine ⟨by decide, by decide, by decide, by decide⟩

/-- Claim C7 (as stated, fails): for `package name\n// import "name"\n` the default mode
does not write `package name;import "name"`. -/
theorem C7_counterexample :
    compact srcPragmaNextLine ≠ some (bytes "package name;import \"name\"") ∧
    compact srcPragmaNextLineComments ≠ some (bytes "package name;import \"name\"") := by
  refine ⟨by decide, by decide⟩

/-- Claim C7 (amended): for `package name\n// import "name"\n` the default mode writes
exactly the 12 bytes `package name` and returns no error, both on the tokens `Write`
scans (comments skipped) and on the tokens with the comment. -/
theorem C7_pragma_on_next_line_dropped :
    (New bufferWriter [] false).Write srcPragmaNextLine
      = some (12, none, bytes "package name") ∧
    (New bufferWriter [] false).Write srcPragmaNextLineComments
      = some (12, none, bytes "package name") := by
  refine ⟨by decide, by decide⟩

/-- `Diff` on two trees that share no node returns `(nil, nil)` if and only if their
non-comment nodes, listed in pre-order, are equally many and `compare` holds for each pair
of nodes at the same place in the two lists: how the nodes are nested is not compared. -/
theorem Diff_nil_iff_preorder_pairs (a b : Node)
    (h : ∀ x ∈ a.preorder, ∀ y ∈ b.preorder, sameNode (some x) (some y) = false) :
    Diff (some a) (some b) = some (none, none) ↔
      List.Forall₂ (fun x y => compare (some x) (some y) = some true)
        a.preorder b.preorder := by
  simp only [Diff, goInspect_eq_preorder]
  exact diffLoop_nil_iff _ _ h

/-- Claim C8 (fails on the code): `Diff` returns `(nil, nil)` and `Compare` returns true
for the block statements `{{}{}}` and `{{{}}}`, and for `{if a {b()} else {c()}}` and
`{if a {b()}; {c()}}`. Neither pair is equivalent modulo comments: the trees hold no
comment and do not have the same shape. -/
theorem C8_diff_ignores_nesting :
    Diff (some blockTwoInside) (some blockNested) = some (none, none) ∧
    Compare (some blockTwoInside) (some blockNested) = some true ∧
    equivalentModuloComments blockTwoInside blockNested = false ∧
    Diff (some treeIfElse) (some treeIfThenBlock) = some (none, none) ∧
    Compare (some treeIfElse) (some treeIfThenBlock) = some true ∧
    equivalentModuloComments treeIfElse treeIfThenBlock = false := by
  refine ⟨by rfl, by rfl, by decide, by rfl, by rfl, by decide⟩

/-- Claim C9 (as stated, fails): each of these token sequences occupies disjoint spans
of its source, in order. For the formatted 30-byte source with a raw string of eight
backslashes 35 bytes are written; for the nine bytes `return` followed at once by a
character literal, 10; for the nine bytes `for;;case`, 10; for the two bytes `1x`, 3; for
the tokens `/` and `*` on two bytes, 3; for `return`, an empty comment token and a
character literal on nine bytes, 10. On a string literal token with the empty literal,
and on the tokens of `import x(/*`, a call of `WriteToken` panics and nothing is
returned. -/
theorem C9_counterexample :
    (srcRawBackslashes.length = 30 ∧
      spansDisjoint (1 + 30) 1 srcRawBackslashesAt = true ∧
      (New bufferWriter [] false).Write srcRawBackslashesAt
        = some (35, none, bytes "package p;var s=\"`\\\\\\\\\\\\\\\\\\\\\\\\\\\\\\\\\"")) ∧
    (spansDisjoint (1 + 9) 1 srcReturnChar = true ∧
      (New bufferWriter [] false).Write srcReturnChar
        = some (10, none, bytes "return \x27a\x27")) ∧
    (spansDisjoint (1 + 9) 1 srcForCase = true ∧
      (New bufferWriter [] false).Write srcForCase = some (10, none, bytes "for;;;case")) ∧
    (spansDisjoint (1 + 2) 1 srcIntIdent = true ∧
      (New bufferWriter [] false).Write srcIntIdent = some (3, none, bytes "1 x")) ∧
    (spansDisjoint (1 + 2) 1 srcQuoMul = true ∧
      (New bufferWriter [] false).Write srcQuoMul = some (3, none, bytes "/ *")) ∧
    (spansDisjoint (1 + 9) 1 srcReturnEmptyComment = true ∧
      (New bufferWriter [] false).Write srcReturnEmptyComment
        = some (10, none, bytes "return \x27a\x27")) ∧
    (spansDisjoint (1 + 0) 1 srcEmptyString = true ∧
      (New bufferWriter [] false).Write srcEmptyString = none) ∧
    (spansDisjoint (1 + 11) 1 srcImportOpenComment = true ∧
      (New bufferWriter [] false).Write srcImportOpenComment = none) := by
  refine ⟨⟨by decide, by decide, by decide⟩, ⟨by decide, by decide⟩, ⟨by decide, by decide⟩,
    ⟨by decide, by decide⟩, ⟨by decide, by decide⟩, ⟨by decide, by decide⟩,
    ⟨by decide, by decide⟩, by decide, by decide⟩

/-- Claim C9 (amended): take a token sequence in which, up to the first end marker,
no string literal token is empty or a raw string literal; no comment token is empty, and
one whose second byte is `*` has at least four bytes; the tokens occupy disjoint spans of
a source of `size` bytes that starts at `base`, in order, each span as long as the text
written for the token, only a terminator ending past the end of the source; and at least
one byte lies between a token and the one before it where `needsGap` holds: `/` then `*`,
a keyword then a keyword or literal other than a string literal or `import`, a literal
then a keyword or literal other than a string literal, `import` or `case`, and `for;;`
then `case`. Then `Write` over an empty buffer returns, in either mode, the count it
returns is the number of bytes written, and that number is at most `size`. -/
theorem C9_non_growth_spaced_tokens (base : Int) (size : Nat) (omitPath : Bool)
    (scan : List Scanned)
    (h : fitsSource (base + size) base [] scan = true) :
    ∃ n err out, (New bufferWriter [] omitPath).Write scan = some (n, err, out) ∧
      n = out.length ∧ out.length ≤ size := by
  obtain ⟨m1, ec, hw, hn, hl⟩ :=
    Mini.writeLoop_fits scan base [] _ 0 (New_fits base size omitPath) h
  unfold Mini.Write
  rw [hw]
  by_cases hc : m1.err = none ∧ ec ≠ 0
  · exact ⟨m1.n, some (Error.errorCount ec), m1.out, by simp only [if_pos hc], hn, by omega⟩
  · exact ⟨m1.n, m1.err, m1.out, by simp only [if_neg hc], hn, by omega⟩

/-- The amended claim C9 at the tokens of `switch x{case 1:break;case 2:for;;{}}`. -/
theorem C9_non_growth_spaced_tokens_witness :
    fitsSource ((1 : Int) + ((37 : Nat) : Int)) 1 [] srcSwitchCompact = true ∧
    ∃ n err out, (New bufferWriter [] false).Write srcSwitchCompact = some (n, err, out) ∧
      n = out.length ∧ out.length ≤ 37 :=
  ⟨by decide, C9_non_growth_spaced_tokens 1 37 false srcSwitchCompact (by decide)⟩

/-- Claim C10 (fails on the code): for the token sequence `import`, `x`, the block
comment `/* import "a\nb" */`, `"y"`, terminator, end, the default mode emits the text of
the block comment from `import` on, and the bytes written contain the newline byte. The
same happens on the tokens the scanner reports for the source
`package p\n\nimport "y"\n\nvar a = ( /* import "a\nb" */ 1)\n`. -/
theorem C10_pragma_newline_written :
    compact srcImportComment = some (bytes "import ximport \"a\nb\"\"y\"") ∧
    (compact srcImportComment).map (fun out => decide (10 ∈ out)) = some true ∧
    compact srcVarPragmaComment
      = some (bytes "package p;import\"y\";var a=(import \"a\nb\"1)") ∧
    (compact srcVarPragmaComment).map (fun out => decide (10 ∈ out)) = some true := by
  refine ⟨by decide, by decide, by decide, by decide⟩

/-- Claim C11 (fails on the code): for the tokens of `for {\n}\n` the compactor writes
`for{}`, but for the tokens of `for ; ; {}\n` it writes `for;;{}`, with both terminators
between the keyword and the brace; `Examine` reports these very bytes as a violation, at
the brace. -/
theorem C11_for_two_terminators_kept :
    compact srcForEmpty = some (bytes "for\x7b\x7d") ∧
    compact srcForTwoTerminators = some (bytes "for;;\x7b\x7d") ∧
    Examine 7 rescanForTwoTerminators
      = some (some (ExamineError.report false 6 (bytes ";") [])) := by
  refine ⟨by decide, by decide, by decide⟩

/-- Claim C12: with the option `OmitImportPath` set, for every target and every token
sequence (no scanner error being reported with a comment token), the count, the error
and the target that `Write` returns are those for the sequence without its comment
tokens. -/
theorem C12_omit_mode_ignores_comments {σ : Type} (w : Writer σ) (out : σ)
    (scan : List Scanned)
    (h : ∀ s ∈ scan, s.tok = Token.COMMENT → s.errs = []) :
    (New w out true).Write scan = (New w out true).Write (withoutComments scan) := by
  unfold Mini.Write
  rw [Mini.writeLoop_withoutComments scan (New w out true) 0 rfl rfl (by simp [New]) h]

/-- Claim C12 at the tokens of `import x /* import "p" */ "y"` followed by a line
comment, over a buffer. -/
theorem C12_omit_mode_ignores_comments_witness :
    (∀ s ∈ srcImportPragma, s.tok = Token.COMMENT → s.errs = []) ∧
    (New bufferWriter [] true).Write srcImportPragma
      = (New bufferWriter [] true).Write (withoutComments srcImportPragma) :=
  ⟨by decide, C12_omit_mode_ignores_comments bufferWriter [] srcImportPragma (by decide)⟩

/-- Claim C13: in every run of a fresh compactor over a buffer, at every call of
`WriteToken` the phase of the import path is one of 0..3, it stays or moves 1 to 2 on
`import`, 2 to 3 on an identifier, 3 to 0 on a comment or a terminator, it never leaves
0, and a comment token that changes the bytes written appends exactly what
`fetchImportPaths` returns for its text; at most one comment token of the run changes
the bytes written. -/
theorem C13_phase_and_one_comment (omitPath : Bool) (scan : List Scanned) :
    (∀ c ∈ (New bufferWriter [] omitPath).calls 0 scan,
      (0 ≤ c.before.importPath ∧ c.before.importPath ≤ 3) ∧
      phaseMove c.before.importPath c.scanned.tok c.after.importPath ∧
      (c.before.importPath = 0 → c.after.importPath = 0) ∧
      (c.scanned.tok = Token.COMMENT → c.after.out ≠ c.before.out →
        ∃ l, fetchImportPaths c.scanned.lit = some l ∧ c.after.out = c.before.out ++ l)) ∧
    (((New bufferWriter [] omitPath).calls 0 scan).filter Call.commentWritten).length ≤ 1 := by
  have hr : 0 ≤ (New bufferWriter [] omitPath).importPath ∧
      (New bufferWriter [] omitPath).importPath ≤ 3 := by
    cases omitPath <;> simp [New]
  obtain ⟨h1, h2⟩ := Mini.calls_phaseOk scan (New bufferWriter [] omitPath) 0 rfl rfl hr
  refine ⟨fun c hc => ?_, ?_⟩
  · obtain ⟨ha, hb, hd⟩ := h1 c hc
    refine ⟨ha, hb, fun h0 => ?_, hd⟩
    unfold phaseMove at hb
    omega
  · refine le_trans h2 ?_
    split <;> omega

/-- Claim C14 (fails on the code): in the buffer `package name;//import "name"` the
comment is the fourth token and `fetchImportPaths` recognises its text, yet `Examine`
reports a violation at the comment. -/
theorem C14_pragma_comment_rejected :
    fetchImportPaths (bytes "//import \"name\"") = some (bytes "import \"name\"") ∧
    Examine 28 rescanPragmaFourth
      = some (some (ExamineError.report false 14 (bytes ";") (bytes "//import \"name\""))) := by
  refine ⟨by decide, by decide⟩

/-- Claim C15 (fails on the code): `Examine` returns nil for the buffer `for;a;b{x;;y}`,
whose two adjacent terminators do not follow the `for` keyword; for `if a{x;;y}` it
reports them. -/
theorem C15_terminators_in_loop_body_accepted :
    Examine 13 rescanForBodyTerminators = some none ∧
    Examine 10 rescanIfBodyTerminators
      = some (some (ExamineError.report false 8 (bytes ";") (bytes ";"))) := by
  refine ⟨by decide, by decide⟩

/-- Claim C16 (as stated, fails): a compactor that has taken the end marker has no error
recorded, and `WriteToken` on an illegal token returns false without recording
`ErrILLEGAL`; and when one call of `Scan` reports two errors, `Write` returns the second
one, not the first. -/
theorem C16_counterexample :
    (((New bufferWriter [] false).WriteToken .EOF []).map (fun r => (r.1.err, r.1.tok))
        = some (none, Token.EOF) ∧
      ((New bufferWriter [] false).WriteToken .EOF []).bind
          (fun r => (r.1.WriteToken .ILLEGAL []).map (fun r2 => (r2.1.err, r2.2)))
        = some (none, false)) ∧
    (New bufferWriter [] false).Write srcTwoErrors
      = some (0, some (Error.scanner 1 (bytes "string literal not terminated")), []) := by
  refine ⟨⟨by decide, by decide⟩, by decide⟩

/-- Claim C16 (amended): for every compactor over any target, (1) with no error recorded
and the end marker not yet taken, `WriteToken` on an illegal token returns false and
changes nothing but the last token and the error, which becomes `ErrILLEGAL`; (2) with
no error recorded, `write` and `writeString` record the very error the target returns;
(3) with an error recorded, `WriteToken` returns false and it, `write` and `writeString`
leave the compactor, its error and its target as they are. -/
theorem C16_errors_sticky {σ : Type} (m : Mini σ) (tok : Token) (lit : Bytes) (c : Nat)
    (s : Bytes) :
    (m.err = none → m.tok ≠ Token.EOF →
      m.WriteToken Token.ILLEGAL lit
        = some ({ m with tok := Token.ILLEGAL, err := some Error.ILLEGAL }, false)) ∧
    (m.err = none →
      (m.write c).1.err = (m.w m.out [c]).2.1 ∧
      (m.writeString s).1.err
        = (match m.sw with
            | none => m.w m.out s
            | some f => f m.out s).2.1) ∧
    (m.err ≠ none →
      m.WriteToken tok lit = some (m, false) ∧ m.write c = (m, false) ∧
      m.writeString s = (m, false)) := by
  refine ⟨fun he ht => ?_, fun he => ⟨?_, ?_⟩, fun he => ⟨?_, ?_, ?_⟩⟩
  · unfold Mini.WriteToken
    simp [he, ht]
  · simp [Mini.write, he]
  · cases hsw : m.sw <;> simp [Mini.writeString, he, hsw]
  · unfold Mini.WriteToken
    simp [he]
  · exact (Mini.write_of_err m c s he).1
  · exact (Mini.write_of_err m c s he).2

/-- The amended claim C16 at a fresh compactor over a target that fails, and at that
compactor after a failed write. -/
theorem C16_errors_sticky_witness :
    (New failingWriter [] false).WriteToken Token.ILLEGAL []
      = some ({ New failingWriter [] false with
                  tok := Token.ILLEGAL, err := some Error.ILLEGAL }, false) ∧
    ((New failingWriter [] false).write 59).1.err = some (Error.sink 1) ∧
    ((New failingWriter [] false).write 59).1.WriteToken Token.IDENT (bytes "x")
      = some (((New failingWriter [] false).write 59).1, false) :=
  ⟨(C16_errors_sticky (New failingWriter [] false) Token.IDENT [] 59 []).1 rfl (by decide),
   ((C16_errors_sticky (New failingWriter [] false) Token.IDENT [] 59 []).2.1 rfl).1,
   ((C16_errors_sticky ((New failingWriter [] false).write 59).1 Token.IDENT (bytes "x") 59
      []).2.2 (by decide)).1⟩

/-- Claim C17: for every pair in which `a` is nil or `b` is nil, `Diff` returns the pair
`(a, b)` itself. -/
theorem C17_diff_absent (a b : Option Node) (h : a = none ∨ b = none) :
    Diff a b = some (a, b) := by
  cases a with
  | none => rfl
  | some x =>
    cases b with
    | none => rfl
    | some y => simp at h

/-- Claim C17 at a block statement and nil, and at nil and nil. -/
theorem C17_diff_absent_witness :
    ((some blockNested = none ∨ (none : Option Node) = none) ∧
      Diff (some blockNested) none = some (some blockNested, none)) ∧
    Diff none none = some (none, none) :=
  ⟨⟨Or.inr rfl, C17_diff_absent (some blockNested) none (Or.inr rfl)⟩,
   C17_diff_absent none none (Or.inl rfl)⟩

/-- Claim C18 (fails on the code): after a keyword the pending terminator is replaced by
a blank: the tokens of `return\ndefault:` give `return default:`, and those of
`for ; i < n; i++ {\n}\n` give `for i<n;i++{}`, the bytes written for
`for i < n; i++ {\n}\n`; only before `case` is the `;` written (`return;case 1:`). -/
theorem C18_terminator_replaced_by_blank :
    compact srcReturnDefault = some (bytes "return default:") ∧
    compact srcForCondition = some (bytes "for i<n;i++\x7b\x7d") ∧
    compact srcForCondition = compact srcForNoFirstTerminator ∧
    compact srcReturnCase = some (bytes "return;case 1:") := by
  refine ⟨by decide, by decide, by decide, by decide⟩

/-- Claim C19 (fails on the code): on the buffers `1+x`, `-x`, `(x)` and `x=1`, whose
first token stands at byte 0 and is a literal, an operator, a bracket or an identifier,
`Examine` reports a violation at that token, with a blank before it; on `go f()`, which
begins with a keyword, it returns nil. -/
theorem C19_first_token_has_gap :
    Examine 3 rescanSum = some (some (ExamineError.report true 1 [] (bytes "1"))) ∧
    Examine 2 rescanNegation = some (some (ExamineError.report true 1 [] [])) ∧
    Examine 3 rescanParen = some (some (ExamineError.report true 1 [] [])) ∧
    Examine 3 rescanAssign = some (some (ExamineError.report true 1 [] (bytes "x"))) ∧
    Examine 6 rescanGo = some none := by
  refine ⟨by decide, by decide, by decide, by decide, by decide⟩

/-- Claim C20 (fails on the code): `fetchImportPaths` panics on `/*` and on `/*/` (slice
bounds out of range); so does `Examine` on the buffer `package p;/*`, where the open
comment is the fourth token, and so does `WriteToken` on that comment in phase 3. -/
theorem C20_fetchImportPaths_panics :
    fetchImportPaths (bytes "/*") = none ∧
    fetchImportPaths (bytes "/*/") = none ∧
    Examine 12 rescanOpenComment = none ∧
    (New bufferWriter [] false).writeLoop 0
        [tk .IMPORT "import", tk .IDENT "x", tk .COMMENT "/*"] = none := by
  refine ⟨by decide, by decide, by decide, by rfl⟩

end GoGraph
